import Mathlib

/-!
Verification of the MEDiSCAN-AI OCR field-extraction pipeline
(`ocr-service/parse_enhanced.py`, `ocr-service/ocr-service.py`).

The Python sources are shallowly embedded: strings become `List Char`,
each extractor's specific regular expression is realised as a hand-rolled
leftmost-search matcher with the same alternation order, greediness and
backtracking behaviour as Python `re`, and floating-point parse/format is
modelled with exact scaled decimals (faithful for the short decimal
values the pipeline handles).  Character classes follow Python's Unicode
whitespace set where line structure depends on it and ASCII elsewhere
(the OCR text handled by the service is ASCII).
-/

namespace MediScan

/-- Python strings are modelled as lists of characters. -/
abbrev Str := List Char

/-- Coerce a Lean string literal to the model type. -/
def strL (s : String) : Str := s.data

/-! ## Character classes -/

/-- Python regex `\s` / `str.isspace()` character set (the code points
Python treats as whitespace). -/
def isPySpace (c : Char) : Bool :=
  (9 ≤ c.toNat && c.toNat ≤ 13) || c.toNat == 32 ||
  (28 ≤ c.toNat && c.toNat ≤ 31) || c.toNat == 133 || c.toNat == 160 ||
  c.toNat == 5760 || (8192 ≤ c.toNat && c.toNat ≤ 8202) ||
  c.toNat == 8232 || c.toNat == 8233 || c.toNat == 8239 ||
  c.toNat == 8287 || c.toNat == 12288

/-- Characters on which Python `str.splitlines` breaks a line. -/
def isLineBound (c : Char) : Bool :=
  c.toNat == 10 || c.toNat == 11 || c.toNat == 12 || c.toNat == 13 ||
  (28 ≤ c.toNat && c.toNat ≤ 30) || c.toNat == 133 ||
  c.toNat == 8232 || c.toNat == 8233

/-- ASCII decimal digit (regex `[0-9]`). -/
def isDigitC (c : Char) : Bool := 48 ≤ c.toNat && c.toNat ≤ 57

/-- ASCII uppercase letter. -/
def isUpperC (c : Char) : Bool := 65 ≤ c.toNat && c.toNat ≤ 90

/-- ASCII lowercase letter. -/
def isLowerC (c : Char) : Bool := 97 ≤ c.toNat && c.toNat ≤ 122

/-- ASCII letter or digit (regex `[A-Za-z0-9]`). -/
def isAlnumC (c : Char) : Bool := isDigitC c || isUpperC c || isLowerC c

/-- Python regex `\w` restricted to ASCII (the service handles ASCII OCR
text): letters, digits and underscore. -/
def isWordC (c : Char) : Bool := isAlnumC c || c.toNat == 95

/-- Class `[_\|]` of the table-border collapse in `_normalize_ocr_noise`. -/
def isUPipe (c : Char) : Bool := c.toNat == 95 || c.toNat == 124

/-- ASCII lower-casing, as applied by Python `str.lower()` and the
`re.IGNORECASE` flag on the ASCII inputs handled here. -/
def toLowerC (c : Char) : Char :=
  if h : 65 ≤ c.toNat ∧ c.toNat ≤ 90 then
    ⟨⟨⟨c.toNat + 32, by omega⟩⟩, Or.inl (by change c.toNat + 32 < 55296; omega)⟩
  else c

/-- ASCII upper-casing, as applied by Python `str.upper()`. -/
def toUpperC (c : Char) : Char :=
  if h : 97 ≤ c.toNat ∧ c.toNat ≤ 122 then
    ⟨⟨⟨c.toNat - 32, by omega⟩⟩, Or.inl (by change c.toNat - 32 < 55296; omega)⟩
  else c

/-- Lower-case an entire string (Python `str.lower()`). -/
def lowerStr (s : Str) : Str := s.map toLowerC

/-- Upper-case an entire string (Python `str.upper()`). -/
def upperStr (s : Str) : Str := s.map toUpperC

/-! ## Normalizer (`_normalize_ocr_noise`, `_lines`) -/

/-- Python `s.replace('\r\n', '\n')`: replace each (non-overlapping,
leftmost-first) occurrence of CR LF by LF. -/
def replCRLF : Str → Str
  | [] => []
  | [c] => [c]
  | a :: b :: rest =>
    if a = '\r' ∧ b = '\n' then '\n' :: replCRLF rest
    else a :: replCRLF (b :: rest)

/-- Python `s.replace('\t', ' ')`. -/
def replTab (s : Str) : Str := s.map (fun c => if c = '\t' then ' ' else c)

/-- Python `re.sub('[–—−]', '-', s)`: normalise Unicode dashes. -/
def dashNorm (s : Str) : Str :=
  s.map (fun c =>
    if c.toNat == 8211 || c.toNat == 8212 || c.toNat == 8722 then '-' else c)

/-- Fuelled worker for `re.sub(r'[_\|]{2,}', '-', s)`: a maximal run of
two or more `_`/`|` characters becomes a single dash; isolated ones are
kept.  The fuel argument only makes the recursion structural; it is
always called with fuel ≥ length, where it never runs out. -/
def collapseUPGo : Nat → Str → Str
  | 0, l => l
  | _ + 1, [] => []
  | f + 1, a :: rest =>
    if isUPipe a then
      match rest with
      | [] => [a]
      | b :: _ =>
        if isUPipe b then '-' :: collapseUPGo f (rest.dropWhile isUPipe)
        else a :: collapseUPGo f rest
    else a :: collapseUPGo f rest

/-- Python `re.sub(r'[_\|]{2,}', '-', s)`. -/
def collapseUP (s : Str) : Str := collapseUPGo s.length s

/-- Python `re.sub(r'\s+', ' ', s)`: every maximal whitespace run —
newlines included — becomes a single space. -/
def collapseWs : Str → Str
  | [] => []
  | [c] => if isPySpace c then [' '] else [c]
  | a :: b :: rest =>
    if isPySpace a && isPySpace b then collapseWs (b :: rest)
    else (if isPySpace a then ' ' else a) :: collapseWs (b :: rest)

/-- Python `str.strip()`: drop leading and trailing whitespace. -/
def pyStrip (s : Str) : Str :=
  ((s.dropWhile isPySpace).reverse.dropWhile isPySpace).reverse

/-- Embedding of `_normalize_ocr_noise`. -/
def normalize_ocr_noise (s : Str) : Str :=
  if s = [] then []
  else pyStrip (collapseWs (dashNorm (collapseUP (replTab (replCRLF s)))))

/-- Fuelled worker for Python `str.splitlines()` (no `keepends`), with
`\r\n` counted as a single break.  Fuel makes the recursion structural;
it is called with fuel ≥ length and never runs out. -/
def splitlinesGo : Nat → Str → List Str
  | 0, _ => []
  | _ + 1, [] => []
  | f + 1, c :: rest =>
    if c = '\r' then
      if rest.head? = some '\n' then [] :: splitlinesGo f rest.tail
      else [] :: splitlinesGo f rest
    else if isLineBound c then [] :: splitlinesGo f rest
    else
      match splitlinesGo f rest with
      | [] => [[c]]
      | l :: ls => (c :: l) :: ls

/-- Python `str.splitlines()` (no `keepends`). -/
def splitlinesPy (s : Str) : List Str := splitlinesGo s.length s

/-- Embedding of `_lines`: normalise, split into lines, strip each line
and drop blank ones. -/
def linesF (text : Str) : List Str :=
  ((splitlinesPy (normalize_ocr_noise text)).map pyStrip).filter (fun l => l ≠ [])

/-! ## Label extractor (`_find_label_value`) -/

/-- Case-insensitive literal prefix match: if `s` starts with `pat`
(compared lower-cased, as under `re.IGNORECASE`), return the remainder. -/
def stripCI : Str → Str → Option Str
  | [], s => some s
  | _ :: _, [] => none
  | p :: ps, c :: cs => if toLowerC c = toLowerC p then stripCI ps cs else none

/-- Case-sensitive literal prefix match. -/
def stripLit : Str → Str → Option Str
  | [], s => some s
  | _ :: _, [] => none
  | p :: ps, c :: cs => if c = p then stripLit ps cs else none

/-- Continuation `\s*[:\-]?\s*(.+)` of the label pattern, applied to the
text following a matched label, with Python backtracking order: greedy
whitespace, optional `:`/`-`, greedy whitespace, then a non-empty
remainder; when only whitespace is left the capture backtracks to a
single space, which `.strip()` then empties.  Returns the stripped
captured group, or `none` when nothing at all follows the label. -/
def sepCapture (rest : Str) : Option Str :=
  match rest.dropWhile isPySpace with
  | [] => if rest = [] then none else some []
  | c :: r2 =>
    if c = ':' ∨ c = '-' then
      if r2 = [] then some [c]
      else
        match r2.dropWhile isPySpace with
        | [] => some []
        | r3 => some (pyStrip r3)
    else some (pyStrip (c :: r2))

/-- Try every label alternative, in list order, at the current position
(Python alternation backtracks into the next alternative when the
capture after a matched label fails). -/
def tryLabelsAt (labels : List Str) (s : Str) : Option Str :=
  match labels with
  | [] => none
  | l :: ls =>
    match stripCI l s with
    | some rest =>
      match sepCapture rest with
      | some v => some v
      | none => tryLabelsAt ls s
    | none => tryLabelsAt ls s

/-- Leftmost search of the label pattern in one line: scan start
positions left to right, testing every synonym at each position. -/
def labelSearch (labels : List Str) : Str → Option Str
  | [] => tryLabelsAt labels []
  | c :: rest =>
    match tryLabelsAt labels (c :: rest) with
    | some v => some v
    | none => labelSearch labels rest

/-- Embedding of `_find_label_value`: scan lines top to bottom and
return the captured value of the first line the pattern matches. -/
def find_label_value (lines : List Str) (labels : List Str) : Option Str :=
  match lines with
  | [] => none
  | ln :: rest =>
    match labelSearch labels ln with
    | some v => some v
    | none => find_label_value rest labels

/-! ## Patient id (`_normalize_patient_id`, `_extract_patient_id`) -/

/-- Class `[\s:\-]` skipped between an id prefix and its suffix. -/
def isIdSkip (c : Char) : Bool := isPySpace c || c = ':' || c = '-'

/-- Class `[A-Za-z0-9\-]` of the id suffix. -/
def isIdSuffix (c : Char) : Bool := isAlnumC c || c = '-'

/-- Try the alternation `(PID|MRN|ID)` case-insensitively at the current
position; the three alternatives start with pairwise distinct letters,
so at most one matches at a given position. -/
def tryIdPre (s : Str) : Option (Str × Str) :=
  match stripCI (strL "PID") s with
  | some r => some (strL "PID", r)
  | none =>
    match stripCI (strL "MRN") s with
    | some r => some (strL "MRN", r)
    | none =>
      match stripCI (strL "ID") s with
      | some r => some (strL "ID", r)
      | none => none

/-- Leftmost search of `(PID|MRN|ID)[\s:\-]*([A-Za-z0-9\-]+)` inside
`_normalize_patient_id`.  Returns the upper-cased prefix name and the
raw matched suffix.  When the greedy `[\s:\-]*` leaves no suffix
character, Python gives skipped characters back one at a time; the
first (longest-skip) success places the suffix at the last dash of the
skipped run — a single `-`, since the dash is the only character in
both classes — so the backtracked suffix is `-` exactly when the
skipped run contains a dash. -/
def idPrefixScan : Str → Option (Str × Str)
  | [] => none
  | c :: rest =>
    match tryIdPre (c :: rest) with
    | some (pre, after) =>
      let rem := after.dropWhile isIdSkip
      let g := rem.takeWhile isIdSuffix
      if g ≠ [] then some (pre, g)
      else
        if (after.takeWhile isIdSkip).contains '-' then some (pre, ['-'])
        else idPrefixScan rest
    | none => idPrefixScan rest

/-- Embedding of `_normalize_patient_id`. -/
def normalize_patient_id (raw : Str) : Option Str :=
  if raw = [] then none
  else
    match idPrefixScan (pyStrip raw) with
    | some (pre, g) => some (pre ++ '-' :: upperStr g)
    | none =>
      if 4 ≤ ((pyStrip raw).filter isAlnumC).length ∧
          ((pyStrip raw).filter isAlnumC).length ≤ 20 then
        some (upperStr ((pyStrip raw).filter isAlnumC))
      else none

/-- Word boundary after a token: the next character is absent or not a
word character. -/
def nextNonWord (l : Str) : Bool :=
  match l with
  | [] => true
  | c :: _ => !isWordC c

/-- Tail `[-\s]?\d{3,}` of the `PID`/`MRN` fallback alternatives,
returning the full matched alternative text (separator included, as in
the capture group).  Greedy: the optional separator is tried first;
shortening the greedy digit run never helps (the following character
would be a digit, a word character), so it is not retried. -/
def pidTail (name : Str) (r : Str) : Option Str :=
  let noSep :=
    let dg := r.takeWhile isDigitC
    if 3 ≤ dg.length ∧ nextNonWord (r.dropWhile isDigitC) then
      some (name ++ dg)
    else none
  match r with
  | [] => noSep
  | d :: r2 =>
    if d = '-' || isPySpace d then
      let dg := r2.takeWhile isDigitC
      if 3 ≤ dg.length ∧ nextNonWord (r2.dropWhile isDigitC) then
        some (name ++ d :: dg)
      else noSep
    else noSep

/-- Third fallback alternative `[A-Z0-9]{6,12}` followed by `\b`: since
every character of the run is a word character, the greedy quantifier
succeeds only when the whole maximal run has length 6 to 12. -/
def tryIdFallUpper (s : Str) : Option Str :=
  let run := s.takeWhile (fun c => isUpperC c || isDigitC c)
  if 6 ≤ run.length ∧ run.length ≤ 12 ∧
      nextNonWord (s.dropWhile (fun c => isUpperC c || isDigitC c)) then
    some run
  else none

/-- One position of the fallback pattern
`\b(PID[-\s]?\d{3,}|MRN[-\s]?\d{3,}|[A-Z0-9]{6,12})\b` (case-sensitive):
try the three alternatives in order. -/
def tryIdFall (s : Str) : Option Str :=
  match stripLit (strL "PID") s with
  | some r =>
    match pidTail (strL "PID") r with
    | some g => some g
    | none => tryIdFallUpper s
  | none =>
    match stripLit (strL "MRN") s with
    | some r =>
      match pidTail (strL "MRN") r with
      | some g => some g
      | none => tryIdFallUpper s
    | none => tryIdFallUpper s

/-- Leftmost search for the fallback id pattern in one line, tracking
the previous character for the leading word boundary. -/
def idFallbackScan (prev : Option Char) : Str → Option Str
  | [] => none
  | c :: rest =>
    let bOK := match prev with
      | none => true
      | some p => !isWordC p
    if bOK then
      match tryIdFall (c :: rest) with
      | some g => some g
      | none => idFallbackScan (some c) rest
    else idFallbackScan (some c) rest

/-- Labels of the patient-id label strategy. -/
def idLabels : List Str :=
  [strL "Patient ID", strL "PatientID", strL "MRN", strL "ID", strL "PID",
   strL "Hospital No", strL "HNo", strL "Record No"]

/-- Fallback line scan of `_extract_patient_id`: the first line with a
pattern hit is normalised and returned directly (even when
normalisation yields null). -/
def idFallback : List Str → Option Str
  | [] => none
  | ln :: rest =>
    match idFallbackScan none ln with
    | some g => normalize_patient_id g
    | none => idFallback rest

/-- Embedding of `_extract_patient_id` (a labelled value that is the
empty string is falsy in Python, so the fallback scan runs). -/
def extract_patient_id (lines : List Str) : Option Str :=
  match find_label_value lines idLabels with
  | some v => if v ≠ [] then normalize_patient_id v else idFallback lines
  | none => idFallback lines

/-! ## Decimal numbers (Python float parse, format, round)

The pipeline parses short decimal literals with `float()`, converts with
`round(x, n)` and renders with f-strings.  These are modelled with exact
scaled decimals; `round` ties use half-to-even as Python does.  (The
model computes exactly where CPython computes in binary floating point;
for the short clinical values handled here the results coincide.) -/

/-- Scaled decimal: the value is `man / 10 ^ exp`. -/
structure Sci where
  man : Int
  exp : Nat
deriving DecidableEq

/-- Digits of a numeral, most significant first. -/
def digitsToNat (s : Str) : Nat :=
  s.foldl (fun n c => n * 10 + (c.toNat - 48)) 0

/-- Build the value of an integer digit run and a fractional digit run. -/
def sciOfParts (ip fp : Str) : Sci :=
  ⟨(digitsToNat (ip ++ fp) : Int), fp.length⟩

/-- Drop trailing fractional zeros (Python float repr shows the shortest
fraction, and `float("68.10")` prints as `68.1`). -/
def sciNormGo : Int → Nat → Sci
  | m, 0 => ⟨m, 0⟩
  | m, e + 1 => if m % 10 == 0 then sciNormGo (m / 10) e else ⟨m, e + 1⟩

/-- Normalised form of a scaled decimal. -/
def sciNorm (v : Sci) : Sci := sciNormGo v.man v.exp

/-- Fuelled decimal rendering of a natural number. -/
def natDigitsGo : Nat → Nat → Str
  | 0, _ => []
  | f + 1, n =>
    if n < 10 then [Char.ofNat (48 + n)]
    else natDigitsGo f (n / 10) ++ [Char.ofNat (48 + n % 10)]

/-- Decimal rendering of a natural number. -/
def natDigits (n : Nat) : Str := natDigitsGo (n + 1) n

/-- Python `f"{x}"` for a float holding a short decimal: minimal digits,
always at least one fractional digit. -/
def fmtSci (v : Sci) : Str :=
  let w := sciNorm v
  let sign : Str := if w.man < 0 then ['-'] else []
  let n := w.man.natAbs
  if w.exp = 0 then sign ++ natDigits n ++ strL ".0"
  else
    let fs := natDigits (n % 10 ^ w.exp)
    sign ++ natDigits (n / 10 ^ w.exp) ++
      '.' :: (List.replicate (w.exp - fs.length) '0' ++ fs)

/-- Round `num / den` (`den > 0`) to the nearest integer, ties to even
(Python `round`). -/
def roundHalfEven (num : Int) (den : Int) : Int :=
  let q := Int.fdiv num den
  let r := num - q * den
  if 2 * r < den then q
  else if 2 * r > den then q + 1
  else if q % 2 == 0 then q else q + 1

/-- Python `round((v - 32) * 5 / 9, 1)`: Fahrenheit to Celsius. -/
def f2c (v : Sci) : Sci :=
  ⟨roundHalfEven ((v.man - 32 * (10 ^ v.exp : Nat)) * 50)
    ((9 * 10 ^ v.exp : Nat)), 1⟩

/-- Embedding of `_convert_lb_to_kg`: `round(val * 0.45359237, 2)`. -/
def _convert_lb_to_kg (v : Sci) : Sci :=
  ⟨roundHalfEven (v.man * 4535923700) ((10 ^ (v.exp + 8) : Nat)), 2⟩

/-- Comparison `v > n` for a scaled decimal against a natural number. -/
def sciGtNat (v : Sci) (n : Nat) : Bool :=
  v.man > (n : Int) * (10 ^ v.exp : Nat)

/-! ## Temperature (`_extract_temperature`) -/

/-- The temperature unit as captured (the code upper-cases it at once,
so the four possible captures are recorded in canonical upper case). -/
inductive TUnit where
  | tc
  | tf
  | tdeg
  | tsign
deriving DecidableEq

/-- Unit alternation `(C|F|c|f|deg|°)` with the trailing `\b` of the
pattern.  A word boundary follows a letter unit when the next character
is not a word character; it follows `°` (not a word character) only when
the next character is one. -/
def tempUnitTry : Str → Option TUnit
  | [] => none
  | c :: rem =>
    if toLowerC c = 'c' then (if nextNonWord rem then some TUnit.tc else none)
    else if toLowerC c = 'f' then (if nextNonWord rem then some TUnit.tf else none)
    else
      match stripCI (strL "deg") (c :: rem) with
      | some rem2 => if nextNonWord rem2 then some TUnit.tdeg else none
      | none =>
        if c = '°' then
          (match rem with
           | d :: _ => if isWordC d then some TUnit.tsign else none
           | [] => none)
        else none

/-- Resolution of `\s*(C|F|c|f|deg|°)?\b` after the numeric group: a
unit found after the greedy whitespace wins; otherwise the empty unit
matches exactly when the character directly after the number is absent
or not a word character (backtracking the whitespace to length zero). -/
def tempUnitResolve (afterNum : Str) : Option (Option TUnit) :=
  match tempUnitTry (afterNum.dropWhile isPySpace) with
  | some u => some (some u)
  | none => if nextNonWord afterNum then some none else none

/-- Class `[:\s\-]` skipped after the `Temp` label. -/
def isLabelSkip (c : Char) : Bool := c = ':' || isPySpace c || c = '-'

/-- Numeric part `([0-9]{2,3}(?:\.[0-9]+)?)` plus unit resolution,
applied after the label.  The digit run must have length 2 or 3 (a
longer run leaves a digit — a word character — directly after the
group, failing every continuation); the greedy fraction is dropped on
continuation failure (shortening it never helps, a digit would follow). -/
def tempAfterLabel (after : Str) : Option (Sci × Option TUnit) :=
  let body := after.dropWhile isLabelSkip
  let run := body.takeWhile isDigitC
  if run.length < 2 || 3 < run.length then none
  else
    let afterInt := body.dropWhile isDigitC
    match afterInt with
    | '.' :: t =>
      let fd := t.takeWhile isDigitC
      if fd ≠ [] then
        match tempUnitResolve (t.dropWhile isDigitC) with
        | some u => some (sciOfParts run fd, u)
        | none =>
          match tempUnitResolve afterInt with
          | some u => some (sciOfParts run [], u)
          | none => none
      else
        match tempUnitResolve afterInt with
        | some u => some (sciOfParts run [], u)
        | none => none
    | _ =>
      match tempUnitResolve afterInt with
      | some u => some (sciOfParts run [], u)
      | none => none

/-- Leftmost search for
`\bTemp(?:erature)?[:\s\-]*([0-9]{2,3}(?:\.[0-9]+)?)\s*(C|F|c|f|deg|°)?\b`,
tracking the previous character for the leading word boundary; the
greedy optional `erature` is retried without on continuation failure. -/
def tempScan (prev : Option Char) : Str → Option (Sci × Option TUnit)
  | [] => none
  | c :: rest =>
    let bOK := match prev with
      | none => true
      | some p => !isWordC p
    (if bOK then
      match stripCI (strL "Temp") (c :: rest) with
      | some after4 =>
        match stripCI (strL "erature") after4 with
        | some after11 =>
          match tempAfterLabel after11 with
          | some r => some r
          | none =>
            match tempAfterLabel after4 with
            | some r => some r
            | none => tempScan (some c) rest
        | none =>
          match tempAfterLabel after4 with
          | some r => some r
          | none => tempScan (some c) rest
      | none => tempScan (some c) rest
    else tempScan (some c) rest)

/-- Required unit alternation `(C|F)` of the temperature fallback
pattern, with its trailing `\b`. -/
def temp2Unit : Str → Option TUnit
  | [] => none
  | c :: rem =>
    if toLowerC c = 'c' then (if nextNonWord rem then some TUnit.tc else none)
    else if toLowerC c = 'f' then (if nextNonWord rem then some TUnit.tf else none)
    else none

/-- Continuation `\s*(?:°|deg)?\s*(C|F)\b` of the fallback pattern. -/
def temp2AfterNum (afterNum : Str) : Option TUnit :=
  let r1 := afterNum.dropWhile isPySpace
  match r1 with
  | '°' :: r2 => temp2Unit (r2.dropWhile isPySpace)
  | _ =>
    match stripCI (strL "deg") r1 with
    | some r2 => temp2Unit (r2.dropWhile isPySpace)
    | none => temp2Unit r1

/-- Leftmost search for the fallback pattern
`\b([0-9]{2,3}(?:\.[0-9]+)?)\s*(?:°|deg)?\s*(C|F)\b`. -/
def temp2Scan (prev : Option Char) : Str → Option (Sci × TUnit)
  | [] => none
  | c :: rest =>
    let bOK := match prev with
      | none => true
      | some p => !isWordC p
    (if bOK && isDigitC c then
      let s := c :: rest
      let run := s.takeWhile isDigitC
      if run.length < 2 || 3 < run.length then temp2Scan (some c) rest
      else
        let afterInt := s.dropWhile isDigitC
        match afterInt with
        | '.' :: t =>
          let fd := t.takeWhile isDigitC
          if fd ≠ [] then
            match temp2AfterNum (t.dropWhile isDigitC) with
            | some u => some (sciOfParts run fd, u)
            | none =>
              match temp2AfterNum afterInt with
              | some u => some (sciOfParts run [], u)
              | none => temp2Scan (some c) rest
          else
            match temp2AfterNum afterInt with
            | some u => some (sciOfParts run [], u)
            | none => temp2Scan (some c) rest
        | _ =>
          match temp2AfterNum afterInt with
          | some u => some (sciOfParts run [], u)
          | none => temp2Scan (some c) rest
    else temp2Scan (some c) rest)

/-- Rendering of `(m.group(2) or 'C').upper()`. -/
def tunitStr : Option TUnit → Str
  | none => strL "C"
  | some TUnit.tc => strL "C"
  | some TUnit.tf => strL "F"
  | some TUnit.tdeg => strL "DEG"
  | some TUnit.tsign => strL "°"

/-- Embedding of `_extract_temperature`, including the redundant inner
condition of the source (when the outer branch holds the inner one
does too, but the fall-through is mirrored). -/
def _extract_temperature (text : Str) : Option Str :=
  match tempScan none text with
  | some (v, u) =>
    let unit := tunitStr u
    if unit = strL "F" ∨ (unit = strL "C" ∧ sciGtNat v 60) then
      if unit = strL "F" ∨ sciGtNat v 60 then
        some (fmtSci (f2c v) ++ strL " C")
      else some (fmtSci v ++ ' ' :: unit)
    else some (fmtSci v ++ ' ' :: unit)
  | none =>
    match temp2Scan none text with
    | some (v, TUnit.tf) => some (fmtSci (f2c v) ++ strL " C")
    | some (v, _) => some (fmtSci v ++ strL " C")
    | none => none

/-! ## Weight (`_extract_weight`) -/

/-- The weight unit as captured, already lower-cased as the code does
with `.strip().lower()`. -/
inductive WUnit where
  | wkg
  | wkgs
  | wkilograms
  | wlb
  | wlbs
  | wpounds
deriving DecidableEq

/-- Unit alternation `(kg|kgs|kilograms|lb|lbs|pounds)` in pattern
order, each alternative checked with the trailing `\b`. -/
def weightUnitTry (s : Str) : Option WUnit :=
  let tryOne : String → Option Unit := fun lit =>
    match stripCI (strL lit) s with
    | some rem => if nextNonWord rem then some () else none
    | none => none
  match tryOne "kg" with
  | some _ => some WUnit.wkg
  | none =>
  match tryOne "kgs" with
  | some _ => some WUnit.wkgs
  | none =>
  match tryOne "kilograms" with
  | some _ => some WUnit.wkilograms
  | none =>
  match tryOne "lb" with
  | some _ => some WUnit.wlb
  | none =>
  match tryOne "lbs" with
  | some _ => some WUnit.wlbs
  | none =>
  match tryOne "pounds" with
  | some _ => some WUnit.wpounds
  | none => none

/-- Resolution of `\s*(kg|kgs|kilograms|lb|lbs|pounds)?\b` after the
numeric group (same boundary reasoning as for temperature units). -/
def weightUnitResolve (afterNum : Str) : Option (Option WUnit) :=
  match weightUnitTry (afterNum.dropWhile isPySpace) with
  | some u => some (some u)
  | none => if nextNonWord afterNum then some none else none

/-- Separator `\s*[:\-]?\s*` before the numeric group (deterministic:
no backtracking choice can reach a digit the greedy path misses). -/
def wSep (s : Str) : Str :=
  let a := s.dropWhile isPySpace
  match a with
  | ':' :: t => t.dropWhile isPySpace
  | '-' :: t => t.dropWhile isPySpace
  | _ => a

/-- Numeric group `([0-9]{1,3}(?:\.[0-9]+)?)` of the labelled weight
pattern plus unit resolution. -/
def weightAfterLabel (after : Str) : Option (Sci × Option WUnit) :=
  let body := wSep after
  let run := body.takeWhile isDigitC
  if run.length < 1 || 3 < run.length then none
  else
    let afterInt := body.dropWhile isDigitC
    match afterInt with
    | '.' :: t =>
      let fd := t.takeWhile isDigitC
      if fd ≠ [] then
        match weightUnitResolve (t.dropWhile isDigitC) with
        | some u => some (sciOfParts run fd, u)
        | none =>
          match weightUnitResolve afterInt with
          | some u => some (sciOfParts run [], u)
          | none => none
      else
        match weightUnitResolve afterInt with
        | some u => some (sciOfParts run [], u)
        | none => none
    | _ =>
      match weightUnitResolve afterInt with
      | some u => some (sciOfParts run [], u)
      | none => none

/-- Label alternatives `(?:Weight|Wt|Wt\.|Wt:)` in pattern order; a
failing continuation backtracks into the next alternative. -/
def weightTryLabels (s : Str) : Option (Sci × Option WUnit) :=
  let tryOne : String → Option (Sci × Option WUnit) := fun lit =>
    match stripCI (strL lit) s with
    | some after => weightAfterLabel after
    | none => none
  match tryOne "Weight" with
  | some r => some r
  | none =>
  match tryOne "Wt" with
  | some r => some r
  | none =>
  match tryOne "Wt." with
  | some r => some r
  | none => tryOne "Wt:"

/-- Leftmost search for the labelled weight pattern
`\b(?:Weight|Wt|Wt\.|Wt:)\s*[:\-]?\s*([0-9]{1,3}(?:\.[0-9]+)?)\s*(kg|kgs|kilograms|lb|lbs|pounds)?\b`. -/
def weightScan (prev : Option Char) : Str → Option (Sci × Option WUnit)
  | [] => none
  | c :: rest =>
    let bOK := match prev with
      | none => true
      | some p => !isWordC p
    (if bOK then
      match weightTryLabels (c :: rest) with
      | some r => some r
      | none => weightScan (some c) rest
    else weightScan (some c) rest)

/-- Bare-number pattern worker shared by the `NN kg` and `NN lb`
fallbacks: `\b(digits{lo..3}(?:\.[0-9]+)?)\s*(unit alternation)\b`. -/
def bareNumUnitScan (units : List String) (lo : Nat) (prev : Option Char) :
    Str → Option Sci
  | [] => none
  | c :: rest =>
    let bOK := match prev with
      | none => true
      | some p => !isWordC p
    (if bOK && isDigitC c then
      let s := c :: rest
      let run := s.takeWhile isDigitC
      if run.length < lo || 3 < run.length then bareNumUnitScan units lo (some c) rest
      else
        let unitAt : Str → Bool := fun u =>
          units.any (fun lit =>
            match stripCI (strL lit) u with
            | some rem => nextNonWord rem
            | none => false)
        let afterInt := s.dropWhile isDigitC
        match afterInt with
        | '.' :: t =>
          let fd := t.takeWhile isDigitC
          if fd ≠ [] ∧ unitAt ((t.dropWhile isDigitC).dropWhile isPySpace) then
            some (sciOfParts run fd)
          else if unitAt (afterInt.dropWhile isPySpace) then
            some (sciOfParts run [])
          else bareNumUnitScan units lo (some c) rest
        | _ =>
          if unitAt (afterInt.dropWhile isPySpace) then some (sciOfParts run [])
          else bareNumUnitScan units lo (some c) rest
    else bareNumUnitScan units lo (some c) rest)

/-- Embedding of `_extract_weight`: labelled weight first (pounds
converted, missing unit read as kilograms, any other captured unit
echoed), then a bare `NN kg` mention, then a bare `NN lb` mention
converted. -/
def _extract_weight (text : Str) : Option Str :=
  match weightScan none text with
  | some (v, u) =>
    match u with
    | some WUnit.wlb => some (fmtSci (_convert_lb_to_kg v) ++ strL " kg")
    | some WUnit.wlbs => some (fmtSci (_convert_lb_to_kg v) ++ strL " kg")
    | some WUnit.wpounds => some (fmtSci (_convert_lb_to_kg v) ++ strL " kg")
    | none => some (fmtSci v ++ strL " kg")
    | some WUnit.wkg => some (fmtSci v ++ strL " kg")
    | some WUnit.wkgs => some (fmtSci v ++ strL " kgs")
    | some WUnit.wkilograms => some (fmtSci v ++ strL " kilograms")
  | none =>
    match bareNumUnitScan ["kg", "kgs"] 1 none text with
    | some v => some (fmtSci v ++ strL " kg")
    | none =>
      match bareNumUnitScan ["lb", "lbs", "pounds"] 2 none text with
      | some v => some (fmtSci (_convert_lb_to_kg v) ++ strL " kg")
      | none => none

/-! ## Blood pressure (`_extract_bp`, `_extract_vital_regex`) -/

/-- Numeric group `([0-9]{2,3})` where the following element can never
absorb a digit, so the run length must be 2 or 3 and equal the greedy
capture.  Returns the run and the remainder. -/
def readNum23 (s : Str) : Option (Str × Str) :=
  let run := s.takeWhile isDigitC
  if run.length < 2 || 3 < run.length then none
  else some (run, s.dropWhile isDigitC)

/-- Continuation `([0-9]{2,3})\s*SEP\s*([0-9]{2,3})\b` after a matched
prefix, where `SEP` is checked by the supplied reader. -/
def bpPair (sep : Str → Option Str) (body : Str) : Option (Str × Str) :=
  match readNum23 body with
  | none => none
  | some (d1, r1) =>
    match sep (r1.dropWhile isPySpace) with
    | none => none
    | some r2 =>
      match readNum23 (r2.dropWhile isPySpace) with
      | none => none
      | some (d2, r3) => if nextNonWord r3 then some (d1, d2) else none

/-- Prefix alternation `(?:BP|B\.P\.|Blood Pressure)` of the first
blood-pressure pattern. -/
def bpTryLabels (s : Str) : Option Str :=
  match stripCI (strL "BP") s with
  | some r => some r
  | none =>
    match stripCI (strL "B.P.") s with
    | some r => some r
    | none => stripCI (strL "Blood Pressure") s

/-- Leftmost search for
`\b(?:BP|B\.P\.|Blood Pressure)[:\s\-]*([0-9]{2,3})\s*/\s*([0-9]{2,3})\b`. -/
def bp1Scan (prev : Option Char) : Str → Option (Str × Str)
  | [] => none
  | c :: rest =>
    let bOK := match prev with
      | none => true
      | some p => !isWordC p
    (if bOK then
      match bpTryLabels (c :: rest) with
      | some after =>
        match bpPair (fun r => match r with
            | '/' :: t => some t
            | _ => none) (after.dropWhile isLabelSkip) with
        | some p => some p
        | none => bp1Scan (some c) rest
      | none => bp1Scan (some c) rest
    else bp1Scan (some c) rest)

/-- Leftmost search for `\b([0-9]{2,3})\s*over\s*([0-9]{2,3})\b`. -/
def bp2Scan (prev : Option Char) : Str → Option (Str × Str)
  | [] => none
  | c :: rest =>
    let bOK := match prev with
      | none => true
      | some p => !isWordC p
    (if bOK && isDigitC c then
      match bpPair (fun r => stripCI (strL "over") r) (c :: rest) with
      | some p => some p
      | none => bp2Scan (some c) rest
    else bp2Scan (some c) rest)

/-- Leftmost search for `\b([0-9]{2,3})\s*[/:]\s*([0-9]{2,3})\b`. -/
def bp3Scan (prev : Option Char) : Str → Option (Str × Str)
  | [] => none
  | c :: rest =>
    let bOK := match prev with
      | none => true
      | some p => !isWordC p
    (if bOK && isDigitC c then
      match bpPair (fun r => match r with
          | '/' :: t => some t
          | ':' :: t => some t
          | _ => none) (c :: rest) with
      | some p => some p
      | none => bp3Scan (some c) rest
    else bp3Scan (some c) rest)

/-- Embedding of `_extract_bp` composed with `_extract_vital_regex`:
the first pattern that matches wins; both captured groups are digit
runs, so the group-joining branch of `_extract_vital_regex` applies and
yields `systolic/diastolic` (the groups contain no inner whitespace to
strip). -/
def _extract_bp (text : Str) : Option Str :=
  match bp1Scan none text with
  | some (d1, d2) => some (d1 ++ '/' :: d2)
  | none =>
    match bp2Scan none text with
    | some (d1, d2) => some (d1 ++ '/' :: d2)
    | none =>
      match bp3Scan none text with
      | some (d1, d2) => some (d1 ++ '/' :: d2)
      | none => none

/-! ## Age (`_extract_age`) -/

/-- Leftmost search for `\bAge[:\s\-]*([0-9]{1,3})\b`. -/
def age1Scan (prev : Option Char) : Str → Option Str
  | [] => none
  | c :: rest =>
    let bOK := match prev with
      | none => true
      | some p => !isWordC p
    (if bOK then
      match stripCI (strL "Age") (c :: rest) with
      | some after =>
        let body := after.dropWhile isLabelSkip
        let run := body.takeWhile isDigitC
        if 1 ≤ run.length ∧ run.length ≤ 3 ∧
            nextNonWord (body.dropWhile isDigitC) then some run
        else age1Scan (some c) rest
      | none => age1Scan (some c) rest
    else age1Scan (some c) rest)

/-- Suffix alternation `(?:years|yrs|y/o|yo)` with its trailing `\b`. -/
def ageSuffixTry (s : Str) : Bool :=
  [("years" : String), "yrs", "y/o", "yo"].any (fun lit =>
    match stripCI (strL lit) s with
    | some rem => nextNonWord rem
    | none => false)

/-- Leftmost search for `\b([0-9]{1,3})\s*(?:years|yrs|y/o|yo)\b`. -/
def age2Scan (prev : Option Char) : Str → Option Str
  | [] => none
  | c :: rest =>
    let bOK := match prev with
      | none => true
      | some p => !isWordC p
    (if bOK && isDigitC c then
      let s := c :: rest
      let run := s.takeWhile isDigitC
      if run.length ≤ 3 ∧ ageSuffixTry ((s.dropWhile isDigitC).dropWhile isPySpace) then
        some run
      else age2Scan (some c) rest
    else age2Scan (some c) rest)

/-- Embedding of `_extract_age`: the captured digits pass through
`str(int(...))`, which strips leading zeros. -/
def _extract_age (text : Str) : Option Str :=
  match age1Scan none text with
  | some run => some (natDigits (digitsToNat run))
  | none =>
    match age2Scan none text with
    | some run => some (natDigits (digitsToNat run))
    | none => none

/-! ## Sex (`_extract_sex`) -/

/-- Group alternation `([MFmf]|Male|Female|male|female)` of the first
(case-sensitive) sex pattern, each alternative with the trailing `\b`;
returns the matched text. -/
def sexGroup2Try (s : Str) : Option Str :=
  let tryOne : String → Option Str := fun lit =>
    match stripLit (strL lit) s with
    | some rem => if nextNonWord rem then some (strL lit) else none
    | none => none
  match s with
  | [] => none
  | c :: rem =>
    if (c = 'M' ∨ c = 'F' ∨ c = 'm' ∨ c = 'f') ∧ nextNonWord rem then some [c]
    else
      match tryOne "Male" with
      | some g => some g
      | none =>
      match tryOne "Female" with
      | some g => some g
      | none =>
      match tryOne "male" with
      | some g => some g
      | none => tryOne "female"

/-- Class `[:\s]` between the sex label and its value. -/
def isSexSkip (c : Char) : Bool := c = ':' || isPySpace c

/-- Leftmost search for the case-sensitive pattern
`\b(Sex|Gender)[:\s]*([MFmf]|Male|Female|male|female)\b`. -/
def sex1Scan (prev : Option Char) : Str → Option Str
  | [] => none
  | c :: rest =>
    let bOK := match prev with
      | none => true
      | some p => !isWordC p
    (if bOK then
      let s := c :: rest
      let afterLabel :=
        match stripLit (strL "Sex") s with
        | some r => some r
        | none => stripLit (strL "Gender") s
      match afterLabel with
      | some r =>
        match sexGroup2Try (r.dropWhile isSexSkip) with
        | some g => some g
        | none => sex1Scan (some c) rest
      | none => sex1Scan (some c) rest
    else sex1Scan (some c) rest)

/-- Leftmost search for the fallback `\b(Male|Female|M|F)\b` under
`re.IGNORECASE`; returns whether the matched alternative starts with an
`m`. -/
def sex2Scan (prev : Option Char) : Str → Option Bool
  | [] => none
  | c :: rest =>
    let s := c :: rest
    let bOK := match prev with
      | none => true
      | some p => !isWordC p
    let tryOne : String → Option Str := fun lit =>
      match stripCI (strL lit) s with
      | some rem => if nextNonWord rem then some (strL lit) else none
      | none => none
    (if bOK then
      match tryOne "Male" with
      | some _ => some true
      | none =>
      match tryOne "Female" with
      | some _ => some false
      | none =>
      match tryOne "M" with
      | some _ => some true
      | none =>
      match tryOne "F" with
      | some _ => some false
      | none => sex2Scan (some c) rest
    else sex2Scan (some c) rest)

/-- Embedding of `_extract_sex`: the labelled (case-sensitive) pattern
decides by the lower-cased first letter of its captured group, falling
through to the bare case-insensitive pattern. -/
def _extract_sex (text : Str) : Option Str :=
  let viaBare : Option Str :=
    match sex2Scan none text with
    | some true => some (strL "male")
    | some false => some (strL "female")
    | none => none
  match sex1Scan none text with
  | some g2 =>
    match lowerStr g2 with
    | 'm' :: _ => some (strL "male")
    | 'f' :: _ => some (strL "female")
    | _ => viaBare
  | none => viaBare

/-! ## Height (`_extract_height`) -/

/-- ASCII letter. -/
def isAlphaC (c : Char) : Bool := isUpperC c || isLowerC c

/-- Unit alternation `(cm|cm\.|centimeters)` of the first height
pattern, with the trailing `\b` per alternative (`cm.` ends in a
non-word character, so its boundary needs a following word character). -/
inductive HUnit where
  | hcm
  | hcmdot
  | hcent
deriving DecidableEq

/-- Try the height unit alternation at a position. -/
def heightUnitTry (s : Str) : Option HUnit :=
  let viaDot : Option HUnit :=
    match stripCI (strL "cm.") s with
    | some rem2 =>
      (match rem2 with
       | d :: _ => if isWordC d then some HUnit.hcmdot else none
       | [] => none)
    | none => none
  let viaCent : Option HUnit :=
    match stripCI (strL "centimeters") s with
    | some rem3 => if nextNonWord rem3 then some HUnit.hcent else none
    | none => none
  match stripCI (strL "cm") s with
  | some rem =>
    if nextNonWord rem then some HUnit.hcm
    else
      match viaDot with
      | some u => some u
      | none => viaCent
  | none =>
    match viaDot with
    | some u => some u
    | none => viaCent

/-- Resolution of `\s*(cm|cm\.|centimeters)?\b` after the digits. -/
def heightUnitResolve (afterNum : Str) : Option (Option HUnit) :=
  match heightUnitTry (afterNum.dropWhile isPySpace) with
  | some u => some (some u)
  | none => if nextNonWord afterNum then some none else none

/-- Leftmost search for
`\bHeight[:\s\-]*([0-9]{2,3})\s*(cm|cm\.|centimeters)?\b`. -/
def height1Scan (prev : Option Char) : Str → Option (Str × Option HUnit)
  | [] => none
  | c :: rest =>
    let bOK := match prev with
      | none => true
      | some p => !isWordC p
    (if bOK then
      match stripCI (strL "Height") (c :: rest) with
      | some after =>
        let body := after.dropWhile isLabelSkip
        let run := body.takeWhile isDigitC
        if run.length < 2 || 3 < run.length then height1Scan (some c) rest
        else
          match heightUnitResolve (body.dropWhile isDigitC) with
          | some u => some (run, u)
          | none => height1Scan (some c) rest
      | none => height1Scan (some c) rest
    else height1Scan (some c) rest)

/-- Inches suffix `\s*(?:in|inches)?\b` of the feet/inches pattern. -/
def inchSuffixOK (afterD2 : Str) : Bool :=
  let t3 := afterD2.dropWhile isPySpace
  (match stripCI (strL "in") t3 with
   | some rem => nextNonWord rem
   | none => false) ||
  (match stripCI (strL "inches") t3 with
   | some rem => nextNonWord rem
   | none => false) ||
  nextNonWord afterD2

/-- Leftmost search for
`\b([0-9]{1,2})\s*ft\s*([0-9]{1,2})?\s*(?:in|inches)?\b`. -/
def height2Scan (prev : Option Char) : Str → Option (Str × Option Str)
  | [] => none
  | c :: rest =>
    let bOK := match prev with
      | none => true
      | some p => !isWordC p
    (if bOK && isDigitC c then
      let s := c :: rest
      let run := s.takeWhile isDigitC
      if run.length < 1 || 2 < run.length then height2Scan (some c) rest
      else
        match stripCI (strL "ft") ((s.dropWhile isDigitC).dropWhile isPySpace) with
        | some afterFt =>
          let t2 := afterFt.dropWhile isPySpace
          let run2 := t2.takeWhile isDigitC
          if 1 ≤ run2.length ∧ run2.length ≤ 2 ∧ inchSuffixOK (t2.dropWhile isDigitC) then
            some (run, some run2)
          else if inchSuffixOK afterFt then some (run, none)
          else height2Scan (some c) rest
        | none => height2Scan (some c) rest
    else height2Scan (some c) rest)

/-- Leftmost search for `\b([0-9]{2,3})\s*cm\b`. -/
def height3Scan (prev : Option Char) : Str → Option Str
  | [] => none
  | c :: rest =>
    let bOK := match prev with
      | none => true
      | some p => !isWordC p
    (if bOK && isDigitC c then
      let s := c :: rest
      let run := s.takeWhile isDigitC
      if run.length < 2 || 3 < run.length then height3Scan (some c) rest
      else
        match stripCI (strL "cm") ((s.dropWhile isDigitC).dropWhile isPySpace) with
        | some rem => if nextNonWord rem then some run else height3Scan (some c) rest
        | none => height3Scan (some c) rest
    else height3Scan (some c) rest)

/-- Feet/inches conversion `round((ft * 12 + inches) * 2.54)` of
`_extract_height`. -/
def ftInToCm (ft inches : Nat) : Int :=
  roundHalfEven (((ft * 12 + inches) * 254 : Nat)) 100

/-- Embedding of `_extract_height` with its source branching: a unit
containing `cm` (`cm`, `cm.`) echoes the digits with ` cm`; any other
present second group routes into the feet/inches conversion (so a
`centimeters` unit, which does not contain the substring `cm`, is
misread as feet); an absent second group returns the bare first group,
as does the single-group third pattern. -/
def _extract_height (text : Str) : Option Str :=
  match height1Scan none text with
  | some (g1, u) =>
    match u with
    | some HUnit.hcm => some (g1 ++ strL " cm")
    | some HUnit.hcmdot => some (g1 ++ strL " cm")
    | some HUnit.hcent =>
      some (natDigits (ftInToCm (digitsToNat g1) 0).toNat ++ strL " cm")
    | none => some g1
  | none =>
    match height2Scan none text with
    | some (d1, some d2) =>
      some (natDigits (ftInToCm (digitsToNat d1) (digitsToNat d2)).toNat ++ strL " cm")
    | some (d1, none) => some d1
    | none =>
      match height3Scan none text with
      | some g1 => some g1
      | none => none

/-! ## Medications (`_extract_medications`) -/

/-- Substring search for a literal (case-sensitive). -/
def containsLit (needle : Str) : Str → Bool
  | [] => (stripLit needle []).isSome
  | c :: rest =>
    match stripLit needle (c :: rest) with
    | some _ => true
    | none => containsLit needle rest

/-- Python `needle in hay` after both sides were lower-cased. -/
def isSubCI (needle hay : Str) : Bool :=
  containsLit (lowerStr needle) (lowerStr hay)

/-- Python `len(s.split())`: number of maximal non-whitespace runs. -/
def countWordsGo : Bool → Str → Nat
  | _, [] => 0
  | inw, c :: rest =>
    if isPySpace c then countWordsGo false rest
    else (if inw then 0 else 1) + countWordsGo true rest

/-- Python `len(s.split())`. -/
def countWords (s : Str) : Nat := countWordsGo false s

/-- Fuelled splitter for `re.split(r"\n|;|,\s*(?=[A-Za-z])", block)`:
a newline or semicolon separates; a comma separates — consuming the
following whitespace — only when a letter follows it. -/
def medSplitGo : Nat → Str → Str → List Str
  | 0, acc, _ => [acc.reverse]
  | _ + 1, acc, [] => [acc.reverse]
  | f + 1, acc, c :: rest =>
    if c = '\n' ∨ c = ';' then acc.reverse :: medSplitGo f [] rest
    else if c = ',' then
      match rest.dropWhile isPySpace with
      | d :: r2 =>
        if isAlphaC d then acc.reverse :: medSplitGo f [] (d :: r2)
        else medSplitGo f (c :: acc) rest
      | [] => medSplitGo f (c :: acc) rest
    else medSplitGo f (c :: acc) rest

/-- Split a medication block on `\n|;|,\s*(?=[A-Za-z])`. -/
def medSplit (block : Str) : List Str := medSplitGo block.length [] block

/-- Characters stripped from each raw part:
`' •‣․◦'` (space and bullet marks). -/
def isMedStrip (c : Char) : Bool :=
  c = ' ' || c.toNat == 8226 || c.toNat == 8227 || c.toNat == 8228 ||
  c.toNat == 9702

/-- Python `s.strip(' •‣․◦')`. -/
def stripMedChars (s : Str) : Str :=
  ((s.dropWhile isMedStrip).reverse.dropWhile isMedStrip).reverse

/-- Class `[A-Za-z0-9\-\(\)]` of the dosage pattern body. -/
def isMedClass (c : Char) : Bool :=
  isAlnumC c || c = '-' || c = '(' || c = ')'

/-- Dosage unit alternation `(?:mg|g|ml|mcg|IU)` (no trailing boundary);
returns the matched characters and the remainder. -/
def doseUnitTry (s : Str) : Option (Str × Str) :=
  match stripCI (strL "mg") s with
  | some rem => some (s.take 2, rem)
  | none =>
  match stripCI (strL "g") s with
  | some rem => some (s.take 1, rem)
  | none =>
  match stripCI (strL "ml") s with
  | some rem => some (s.take 2, rem)
  | none =>
  match stripCI (strL "mcg") s with
  | some rem => some (s.take 3, rem)
  | none =>
  match stripCI (strL "IU") s with
  | some rem => some (s.take 2, rem)
  | none => none

/-- One attempt of the dosage pattern
`([A-Za-z][A-Za-z0-9\-\(\)]+\s+\d+\s*(?:mg|g|ml|mcg|IU))` at a
position: every quantifier is effectively deterministic here (the
character after each maximal run can never satisfy the next element).
Returns the captured group and the remainder after the match. -/
def doseTry (s : Str) : Option (Str × Str) :=
  match s with
  | [] => none
  | c :: rest =>
    if isAlphaC c then
      let run := rest.takeWhile isMedClass
      if run = [] then none
      else
        let r1 := rest.dropWhile isMedClass
        let sp := r1.takeWhile isPySpace
        if sp = [] then none
        else
          let r2 := r1.dropWhile isPySpace
          let dg := r2.takeWhile isDigitC
          if dg = [] then none
          else
            let r3 := r2.dropWhile isDigitC
            let sp2 := r3.takeWhile isPySpace
            match doseUnitTry (r3.dropWhile isPySpace) with
            | some (u, rem) => some (c :: run ++ sp ++ dg ++ sp2 ++ u, rem)
            | none => none
    else none

/-- Fuelled `re.finditer` over the dosage pattern: leftmost matches,
scanning resumes after each match. -/
def doseFindGo : Nat → Str → List Str
  | 0, _ => []
  | _ + 1, [] => []
  | f + 1, c :: rest =>
    match doseTry (c :: rest) with
    | some (g, rem) => g :: doseFindGo f rem
    | none => doseFindGo f rest

/-- All dosage-pattern matches in the text. -/
def doseFind (text : Str) : List Str := doseFindGo text.length text

/-- Case-sensitive search for `\d+\s*(?:mg|ml|g)` in a line. -/
def doseMentionScan : Str → Bool
  | [] => false
  | c :: rest =>
    (if isDigitC c then
      let r2 := ((c :: rest).dropWhile isDigitC).dropWhile isPySpace
      (stripLit (strL "mg") r2).isSome || (stripLit (strL "ml") r2).isSome ||
        (stripLit (strL "g") r2).isSome
    else false) || doseMentionScan rest

/-- Line condition of the last medication fallback: starts with
`rx`/`prescription` (lower-cased) or mentions a dose. -/
def medLineCond (ln : Str) : Bool :=
  (stripLit (strL "rx") (lowerStr ln)).isSome ||
  (stripLit (strL "prescription") (lowerStr ln)).isSome ||
  doseMentionScan ln

/-- Deduplicate, preserving first occurrence: each entry is whitespace
collapsed and stripped, keyed by its lower-cased form. -/
def medDedupGo (seen : List Str) (acc : List Str) : List Str → List Str
  | [] => acc.reverse
  | s :: rest =>
    let sc := pyStrip (collapseWs s)
    let k := lowerStr sc
    if seen.contains k then medDedupGo seen acc rest
    else medDedupGo (k :: seen) (sc :: acc) rest

/-- Python `'; '.join(xs)`. -/
def joinSemi : List Str → Str
  | [] => []
  | [x] => x
  | x :: y :: rest => x ++ strL "; " ++ joinSemi (y :: rest)

/-- Labels of the medication block strategy. -/
def medLabels : List Str :=
  [strL "Medications", strL "Medication", strL "Rx", strL "Prescription",
   strL "Treatment Plan"]

/-- Embedding of `_extract_medications`. -/
def _extract_medications (lines : List Str) (text : Str) : Option Str :=
  let viaScan : List Str :=
    let d := doseFind text
    if d ≠ [] then d else lines.filter medLineCond
  let meds : List Str :=
    match find_label_value lines medLabels with
    | some b =>
      if b ≠ [] then ((medSplit b).map stripMedChars).filter (fun s => s ≠ [])
      else viaScan
    | none => viaScan
  if meds ≠ [] then some (joinSemi (medDedupGo [] [] meds)) else none

/-! ## Diagnosis and name tiers of `parse_fields_enhanced` -/

/-- Labels of the diagnosis label strategy. -/
def diagLabels : List Str :=
  [strL "Diagnosis", strL "Impression", strL "Assessment", strL "Dx"]

/-- Keyword list of the diagnosis fallback. -/
def medTerms : List Str :=
  [strL "fever", strL "infection", strL "pain", strL "fracture",
   strL "hypertension", strL "diabetes", strL "cough", strL "pneumonia",
   strL "asthma"]

/-- Diagnosis fallback: the first line containing a medical keyword
(lower-cased substring test) and at least three words. -/
def diagFallback : List Str → Option Str
  | [] => none
  | ln :: rest =>
    if medTerms.any (fun t => containsLit t (lowerStr ln)) ∧ 3 ≤ countWords ln then
      some (pyStrip ln)
    else diagFallback rest

/-- Labels of the name label strategy. -/
def nameLabels : List Str :=
  [strL "Full Name", strL "Patient Name", strL "Name"]

/-- Embedding of `_extract_name_via_spacy`, with the NER collaborator
modelled as the entity list the loaded model would return for the text
(`none` when the model is unavailable): keep the longest PERSON span —
first on length ties — whose stripped text has 2 to 6 words. -/
def _extract_name_via_spacy (ner : Option (List (Str × Str))) : Option Str :=
  match ner with
  | none => none
  | some ents =>
    ents.foldl (fun best p =>
      if p.2 = strL "PERSON" then
        let t := pyStrip p.1
        let words := countWords t
        if 1 < words ∧ words ≤ 6 then
          match best with
          | none => some t
          | some b => if b.length < t.length then some t else best
        else best
      else best) none

/-! ## Parser orchestration (`parse_fields_enhanced`) -/

/-- A Python field value: the extractors store strings, the NER-assisted
fallback parser stores the age as an integer. -/
inductive FieldVal where
  | vstr (s : Str)
  | vint (n : Int)
deriving DecidableEq

/-- The dict returned by `parse_fields_enhanced`. -/
structure FieldSet where
  patient_name : Option FieldVal
  patient_id : Option FieldVal
  age : Option FieldVal
  sex : Option FieldVal
  diagnosis : Option FieldVal
  medications : Option FieldVal
  blood_pressure : Option FieldVal
  weight : Option FieldVal
  height : Option FieldVal
  temperature : Option FieldVal
  raw_text : Option FieldVal
deriving DecidableEq

/-- The patient-name tier of `parse_fields_enhanced` (source lines 282
to 288): labelled name first — first line of the capture, stripped —
and otherwise the spaCy strategy.  A labelled name that is the empty
string is falsy in Python and falls through. -/
def nameTier (lines : List Str) (ner : Option (List (Str × Str))) :
    Option Str :=
  match find_label_value lines nameLabels with
  | some v =>
    if v ≠ [] then some (pyStrip (v.takeWhile (fun c => c ≠ '\n')))
    else _extract_name_via_spacy ner
  | none => _extract_name_via_spacy ner

/-- The diagnosis tier of `parse_fields_enhanced` (source lines 299 to
306): labelled value first — first line of the capture, stripped — and
otherwise the keyword fallback. -/
def diagTier (lines : List Str) : Option Str :=
  match find_label_value lines diagLabels with
  | some d =>
    if d ≠ [] then some (pyStrip (d.takeWhile (fun c => c ≠ '\n')))
    else diagFallback lines
  | none => diagFallback lines

/-- Embedding of `parse_fields_enhanced`.  The spaCy collaborator is
modelled by the optional entity list `ner` (what `nlp(text).ents` would
return for this text; `none` when the model is unavailable). -/
def parse_fields_enhanced (text : Str) (ner : Option (List (Str × Str))) :
    FieldSet :=
  let lines := linesF text
  let pname : Option Str := nameTier lines ner
  let diag : Option Str := diagTier lines
  { patient_name := pname.map FieldVal.vstr
    patient_id := (extract_patient_id lines).map FieldVal.vstr
    age := (_extract_age text).map FieldVal.vstr
    sex := (_extract_sex text).map FieldVal.vstr
    diagnosis := diag.map FieldVal.vstr
    medications := (_extract_medications lines text).map FieldVal.vstr
    blood_pressure := (_extract_bp text).map FieldVal.vstr
    weight := (_extract_weight text).map FieldVal.vstr
    height := (_extract_height text).map FieldVal.vstr
    temperature := (_extract_temperature text).map FieldVal.vstr
    raw_text := some (FieldVal.vstr text) }

/-! ## Confidence estimation (`ocr-service.py`) -/

/-- Python truthiness of a field value (`None`, `""` and `0` are
falsy). -/
def pyFalsyF : Option FieldVal → Bool
  | none => true
  | some (FieldVal.vstr s) => s = []
  | some (FieldVal.vint n) => n = 0

/-- Python `str(field_value)` for the values stored in the field set. -/
def strOfField : FieldVal → Str
  | FieldVal.vstr s => s
  | FieldVal.vint n =>
    if n < 0 then '-' :: natDigits n.natAbs else natDigits n.natAbs

/-- Sum of the confidences of a token list. -/
def confSum : List (Str × Nat) → Nat
  | [] => 0
  | p :: rest => p.2 + confSum rest

/-- The document-wide average of `compute_confidences`:
`int(statistics.mean(confs))` for a non-empty list of non-negative
integers truncates toward zero, which is floor division; the empty
list yields 0. -/
def computeOverallAvg (token_conf : List (Str × Nat)) : Nat :=
  if token_conf = [] then 0 else confSum token_conf / token_conf.length

/-- Embedding of `estimate_field_confidence`.  `int(mean)` is floor
division for the non-negative confidences, and
`int(avg_match * 0.8 + 18.0)` truncates the exact value
`avg_match * 4 / 5 + 18` (the tiny positive floating-point error never
crosses an integer boundary for `avg_match ≤ 100`); the
`(90 if field_value else 0) * 0.2` term is the constant 18 on this
branch, where the field value is truthy. -/
def estimate_field_confidence (fv : Option FieldVal)
    (token_conf : List (Str × Nat)) (avg_conf : Nat) : Nat :=
  if pyFalsyF fv then 20
  else
    let fvs := match fv with
      | some v => strOfField v
      | none => []
    let hits := token_conf.filter (fun p => isSubCI p.1 fvs)
    let avg_match :=
      if hits ≠ [] then confSum hits / hits.length else avg_conf
    max 30 (min 95 (avg_match * 4 / 5 + 18))

/-- The per-field confidence map of the `extract_fields` endpoint. -/
structure ConfMap where
  overall : Nat
  patient_name : Nat
  patient_id : Nat
  age : Nat
  sex : Nat
  diagnosis : Nat
  medications : Nat
  blood_pressure : Nat
  weight : Nat
  height : Nat
  temperature : Nat
deriving DecidableEq

/-- The advisory appended when the overall confidence is low. -/
def lowNote : Str :=
  strL "Low overall OCR confidence; consider retaking image with better lighting/contrast"

/-- The pure core of the `extract_fields` endpoint: parse with the
enhanced parser, score every field with `estimate_field_confidence`,
and append the low-confidence advisory exactly when `overall < 50`.
(File handling and OCR are external collaborators; `token_conf` is the
token list `compute_confidences` produced.) -/
def extract_fields_core (text : Str) (token_conf : List (Str × Nat))
    (ner : Option (List (Str × Str))) : FieldSet × ConfMap × List Str :=
  let fields := parse_fields_enhanced text ner
  let avg := computeOverallAvg token_conf
  let est := fun fv => estimate_field_confidence fv token_conf avg
  let confidence : ConfMap :=
    { overall := avg
      patient_name := est fields.patient_name
      patient_id := est fields.patient_id
      age := est fields.age
      sex := est fields.sex
      diagnosis := est fields.diagnosis
      medications := est fields.medications
      blood_pressure := est fields.blood_pressure
      weight := est fields.weight
      height := est fields.height
      temperature := est fields.temperature }
  let notes : List Str := if confidence.overall < 50 then [lowNote] else []
  (fields, confidence, notes)

/-! ## Specification-side definitions

These follow the claim wording (not the source) and exist to be
compared against the embedded code. -/

/-- Claim C3's per-field confidence formula as written:
`clamp(round(matched_avg * 0.8 + 18), 30, 95)` with `matched_avg` the
exact mean confidence of the tokens whose text is a case-insensitive
substring of the field value (or the document-wide average when no
token matches), and 20 for an absent field. -/
def specFieldConfidenceClaim (fv : Option FieldVal)
    (token_conf : List (Str × Nat)) (overallAvg : ℚ) : ℤ :=
  match fv with
  | none => 20
  | some v =>
    let hits := token_conf.filter (fun p => isSubCI p.1 (strOfField v))
    let mavg : ℚ :=
      if hits ≠ [] then (confSum hits : ℚ) / hits.length else overallAvg
    max 30 (min 95 (round (mavg * (4 / 5 : ℚ) + 18)))

/-- The amended C3 formula: both the mean and the final expression are
truncated (floored) rather than rounded, and a Python-falsy present
value (empty string, integer 0) also scores 20. -/
def specFieldConfFloor (fv : Option FieldVal)
    (token_conf : List (Str × Nat)) (overallAvg : Nat) : Nat :=
  if pyFalsyF fv then 20
  else
    let fvs := match fv with
      | some v => strOfField v
      | none => []
    let hits := token_conf.filter (fun p => isSubCI p.1 fvs)
    let mavg : Nat :=
      if hits ≠ [] then Nat.floor ((confSum hits : ℚ) / hits.length)
      else overallAvg
    max 30 (min 95 (Nat.floor ((mavg : ℚ) * (4 / 5 : ℚ) + 18)))

/-- Claim C6's first form `^[A-Z]+-[A-Z0-9]+$`. -/
def specIdRegexClaim (r : Str) : Bool :=
  let pre := r.takeWhile isUpperC
  pre ≠ [] &&
    (match r.drop pre.length with
     | '-' :: suf => suf ≠ [] && suf.all (fun c => isUpperC c || isDigitC c)
     | _ => false)

/-- Claim C6's second form: a bare uppercase alphanumeric token of
length 4 to 20. -/
def isBareIdForm (r : Str) : Bool :=
  4 ≤ r.length && r.length ≤ 20 && r.all (fun c => isUpperC c || isDigitC c)

/-- Claim C6 as stated: either form. -/
def specIdFormClaim (r : Str) : Bool := specIdRegexClaim r || isBareIdForm r

/-- The amended C6 prefix form `^[A-Z]+-[A-Z0-9-]+$`: the suffix may
contain internal hyphens. -/
def amendedIdRegex (r : Str) : Bool :=
  let pre := r.takeWhile isUpperC
  pre ≠ [] &&
    (match r.drop pre.length with
     | '-' :: suf =>
       suf ≠ [] && suf.all (fun c => isUpperC c || isDigitC c || c = '-')
     | _ => false)

/-- The amended C6 invariant. -/
def amendedIdForm (r : Str) : Bool := amendedIdRegex r || isBareIdForm r

/-- A dynamic value that is a string (claim C8 asserts this of every
field except age). -/
def isStrOpt (o : Option FieldVal) : Prop :=
  ∀ v, o = some v → ∃ s, v = FieldVal.vstr s

/-- The end-to-end input of claim C1 (also the module's own demo
input). -/
def c1Input : Str :=
  strL "Name: Jane Doe\nAge: 30\nPID: PID-12345\nBP: 120/80 mmHg\nWeight: 68 kg\nDiagnosis: Mild infection\nRx: Amoxicillin 500mg TDS"

set_option maxRecDepth 10000

/-! ### Normalizer lemmas -/

theorem isPySpace_of_isLineBound {c : Char} (h : isLineBound c = true) :
    isPySpace c = true := by
  simp only [isLineBound, isPySpace, Bool.or_eq_true, Bool.and_eq_true,
    decide_eq_true_eq, Nat.le_iff_lt_or_eq, beq_iff_eq] at h ⊢
  omega

theorem not_isLineBound_space : isLineBound ' ' = false := by decide

theorem mem_collapseWs_space {l : Str} {c : Char} (hm : c ∈ collapseWs l)
    (hs : isPySpace c = true) : c = ' ' := by
  induction l with
  | nil => simp [collapseWs] at hm
  | cons a t ih =>
    cases t with
    | nil =>
      by_cases h : isPySpace a = true
      · simp [collapseWs, h] at hm; exact hm
      · simp [collapseWs, h] at hm; subst hm; simp [h] at hs
    | cons b r =>
      by_cases hab : (isPySpace a && isPySpace b) = true
      · rw [collapseWs, if_pos hab] at hm; exact ih hm
      · rw [collapseWs, if_neg hab] at hm
        rcases List.mem_cons.mp hm with h1 | h2
        · by_cases ha : isPySpace a = true
          · simpa [ha] using h1
          · subst h1; simp [ha] at hs
        · exact ih h2

theorem mem_of_mem_dropWhile {p : Char → Bool} {l : Str} {c : Char}
    (h : c ∈ l.dropWhile p) : c ∈ l :=
  (List.dropWhile_sublist p).mem h

theorem mem_of_mem_pyStrip {l : Str} {c : Char} (h : c ∈ pyStrip l) : c ∈ l := by
  unfold pyStrip at h
  rw [List.mem_reverse] at h
  have h2 := mem_of_mem_dropWhile h
  rw [List.mem_reverse] at h2
  exact mem_of_mem_dropWhile h2

theorem no_bound_normalize {s : Str} {c : Char}
    (h : c ∈ normalize_ocr_noise s) : isLineBound c = false := by
  unfold normalize_ocr_noise at h
  by_cases he : s = []
  · simp [he] at h
  · rw [if_neg he] at h
    have hc : c ∈ collapseWs (dashNorm (collapseUP (replTab (replCRLF s)))) :=
      mem_of_mem_pyStrip h
    by_cases hb : isLineBound c = true
    · have := mem_collapseWs_space hc (isPySpace_of_isLineBound hb)
      subst this
      exact absurd hb (by decide)
    · exact eq_false_of_ne_true hb

theorem splitlinesGo_no_bound {f : Nat} {l : Str} (hf : l.length ≤ f)
    (h : ∀ c ∈ l, isLineBound c = false) :
    splitlinesGo f l = if l = [] then [] else [l] := by
  induction f generalizing l with
  | zero =>
    have : l = [] := List.eq_nil_of_length_eq_zero (Nat.le_zero.mp hf)
    subst this; simp [splitlinesGo]
  | succ f ih =>
    cases l with
    | nil => simp [splitlinesGo]
    | cons a t =>
      have ha : isLineBound a = false := h a (List.mem_cons_self a t)
      have har : a ≠ '\r' := by
        intro hq; subst hq; exact absurd ha (by decide)
      have ht : ∀ c ∈ t, isLineBound c = false :=
        fun c hc => h c (List.mem_cons_of_mem a hc)
      have hft : t.length ≤ f := by
        simpa using Nat.le_of_succ_le_succ (by simpa using hf)
      simp only [splitlinesGo, if_neg har, ha, Bool.false_eq_true, if_false,
        ih hft ht]
      by_cases hte : t = []
      · subst hte; simp
      · rw [if_neg hte]; simp

theorem splitlinesPy_no_bound {l : Str}
    (h : ∀ c ∈ l, isLineBound c = false) :
    splitlinesPy l = if l = [] then [] else [l] :=
  splitlinesGo_no_bound (Nat.le_refl _) h

theorem linesF_length_le (s : Str) : (linesF s).length ≤ 1 := by
  unfold linesF
  have h := splitlinesPy_no_bound (l := normalize_ocr_noise s)
    (fun c hc => no_bound_normalize hc)
  rw [h]
  by_cases he : normalize_ocr_noise s = []
  · simp [he]
  · rw [if_neg he]
    exact le_trans (List.length_filter_le _ _) (by simp)

theorem mem_dropWhile_of_neg {p : Char → Bool} {l : Str} {c : Char}
    (hm : c ∈ l) (hp : p c = false) : c ∈ l.dropWhile p := by
  induction l with
  | nil => simp at hm
  | cons a t ih =>
    rw [List.dropWhile_cons]
    rcases List.mem_cons.mp hm with h1 | h2
    · subst h1; simp [hp]
    · by_cases ha : p a = true
      · simpa [ha] using ih h2
      · simp [ha]; exact Or.inr h2

theorem mem_pyStrip_of_nonspace {l : Str} {c : Char}
    (hm : c ∈ l) (hp : isPySpace c = false) : c ∈ pyStrip l := by
  unfold pyStrip
  rw [List.mem_reverse]
  exact mem_dropWhile_of_neg (by rw [List.mem_reverse]; exact mem_dropWhile_of_neg hm hp) hp

theorem mem_replCRLF_of_nonspace {l : Str} {c : Char}
    (hm : c ∈ l) (hp : isPySpace c = false) : c ∈ replCRLF l := by
  induction l using replCRLF.induct with
  | case1 => simp at hm
  | case2 d => simpa [replCRLF] using hm
  | case3 a b rest hab ih =>
    obtain ⟨ha, hb⟩ := hab
    subst ha; subst hb
    rw [replCRLF, if_pos ⟨rfl, rfl⟩]
    have hc : c ∈ rest := by
      rcases List.mem_cons.mp hm with h1 | h2
      · subst h1; exact absurd hp (by decide)
      · rcases List.mem_cons.mp h2 with h3 | h4
        · subst h3; exact absurd hp (by decide)
        · exact h4
    exact List.mem_cons_of_mem _ (ih hc)
  | case4 a b rest hab ih =>
    rw [replCRLF, if_neg hab]
    rcases List.mem_cons.mp hm with h1 | h2
    · subst h1; exact List.mem_cons_self _ _
    · exact List.mem_cons_of_mem _ (ih h2)

theorem nonspace_replTab {l : Str} {c : Char} (hm : c ∈ l)
    (hp : isPySpace c = false) : c ∈ replTab l := by
  have hct : c ≠ '\t' := by
    intro h; subst h; exact absurd hp (by decide)
  have := List.mem_map_of_mem (fun c => if c = '\t' then ' ' else c) hm
  simpa [replTab, if_neg hct] using this

theorem nonspace_dashNorm {l : Str} (h : ∃ c ∈ l, isPySpace c = false) :
    ∃ c ∈ dashNorm l, isPySpace c = false := by
  obtain ⟨c, hm, hp⟩ := h
  refine ⟨if c.toNat == 8211 || c.toNat == 8212 || c.toNat == 8722 then '-' else c,
    List.mem_map_of_mem _ hm, ?_⟩
  by_cases hd : (c.toNat == 8211 || c.toNat == 8212 || c.toNat == 8722) = true
  · simp [hd]; decide
  · simp only [hd]; simpa using hp

theorem nonspace_collapseUPGo {f : Nat} {l : Str}
    (h : ∃ c ∈ l, isPySpace c = false) :
    ∃ c ∈ collapseUPGo f l, isPySpace c = false := by
  induction f generalizing l with
  | zero => simpa [collapseUPGo] using h
  | succ f ih =>
    cases l with
    | nil => exact absurd h (by simp)
    | cons a rest =>
      by_cases hua : isUPipe a = true
      · have hans : isPySpace a = false := by
          by_contra hc
          rw [Bool.not_eq_false] at hc
          simp only [isPySpace, Bool.or_eq_true, Bool.and_eq_true,
            decide_eq_true_eq, beq_iff_eq] at hc
          simp only [isUPipe, Bool.or_eq_true, beq_iff_eq] at hua
          omega
        cases rest with
        | nil => exact ⟨a, by simp [collapseUPGo, hua], hans⟩
        | cons b r =>
          by_cases hub : isUPipe b = true
          · refine ⟨'-', ?_, by decide⟩
            simp [collapseUPGo, hua, hub]
          · refine ?_
            have : collapseUPGo (f + 1) (a :: b :: r) =
                a :: collapseUPGo f (b :: r) := by
              simp [collapseUPGo, hua, hub]
            rw [this]
            exact ⟨a, List.mem_cons_self _ _, hans⟩
      · have : collapseUPGo (f + 1) (a :: rest) = a :: collapseUPGo f rest := by
          cases rest <;> simp [collapseUPGo, hua]
        rw [this]
        obtain ⟨c, hm, hp⟩ := h
        rcases List.mem_cons.mp hm with h1 | h2
        · subst h1; exact ⟨c, List.mem_cons_self _ _, hp⟩
        · obtain ⟨d, hd1, hd2⟩ := ih ⟨c, h2, hp⟩
          exact ⟨d, List.mem_cons_of_mem _ hd1, hd2⟩

theorem nonspace_collapseWs {l : Str} {c : Char} (hm : c ∈ l)
    (hp : isPySpace c = false) : c ∈ collapseWs l := by
  induction l with
  | nil => simp at hm
  | cons a t ih =>
    cases t with
    | nil =>
      simp at hm; subst hm
      simp [collapseWs, hp]
    | cons b r =>
      rcases List.mem_cons.mp hm with h1 | h2
      · subst h1
        have hab : (isPySpace c && isPySpace b) = false := by simp [hp]
        rw [collapseWs, hab]
        simp [hp]
      · by_cases hab : (isPySpace a && isPySpace b) = true
        · rw [collapseWs, if_pos hab]; exact ih h2
        · rw [collapseWs, if_neg hab]
          exact List.mem_cons_of_mem _ (ih h2)

theorem not_isUPipe_of_space {c : Char} (h : isPySpace c = true) :
    isUPipe c = false := by
  by_contra hc
  rw [Bool.not_eq_false] at hc
  simp only [isPySpace, Bool.or_eq_true, Bool.and_eq_true,
    decide_eq_true_eq, beq_iff_eq] at h
  simp only [isUPipe, Bool.or_eq_true, beq_iff_eq] at hc
  omega

theorem allspace_replCRLF {l : Str} (h : ∀ c ∈ l, isPySpace c = true) :
    ∀ c ∈ replCRLF l, isPySpace c = true := by
  induction l using replCRLF.induct with
  | case1 => simp [replCRLF]
  | case2 d => simpa [replCRLF] using h
  | case3 a b rest hab ih =>
    rw [replCRLF, if_pos hab]
    intro c hc
    rcases List.mem_cons.mp hc with h1 | h2
    · subst h1; decide
    · exact ih (fun d hd => h d (by simp [hd])) c h2
  | case4 a b rest hab ih =>
    rw [replCRLF, if_neg hab]
    intro c hc
    rcases List.mem_cons.mp hc with h1 | h2
    · subst h1; exact h c (List.mem_cons_self _ _)
    · exact ih (fun d hd => h d (List.mem_cons_of_mem _ hd)) c h2

theorem allspace_replTab {l : Str} (h : ∀ c ∈ l, isPySpace c = true) :
    ∀ c ∈ replTab l, isPySpace c = true := by
  intro c hc
  obtain ⟨d, hd, he⟩ := List.mem_map.mp hc
  by_cases ht : d = '\t'
  · subst ht; rw [if_pos rfl] at he; subst he; decide
  · rw [if_neg ht] at he; subst he; exact h d hd

theorem collapseUPGo_id {f : Nat} {l : Str}
    (h : ∀ c ∈ l, isUPipe c = false) : collapseUPGo f l = l := by
  induction f generalizing l with
  | zero => rfl
  | succ f ih =>
    cases l with
    | nil => rfl
    | cons a rest =>
      have ha : isUPipe a = false := h a (List.mem_cons_self _ _)
      have : collapseUPGo (f + 1) (a :: rest) = a :: collapseUPGo f rest := by
        cases rest <;> simp [collapseUPGo, ha]
      rw [this, ih (fun d hd => h d (List.mem_cons_of_mem _ hd))]

theorem allspace_dashNorm {l : Str} (h : ∀ c ∈ l, isPySpace c = true) :
    ∀ c ∈ dashNorm l, isPySpace c = true := by
  intro c hc
  obtain ⟨d, hd, he⟩ := List.mem_map.mp hc
  have hds : isPySpace d = true := h d hd
  have hnd : (d.toNat == 8211 || d.toNat == 8212 || d.toNat == 8722) = false := by
    by_contra hx
    rw [Bool.not_eq_false] at hx
    simp only [Bool.or_eq_true, beq_iff_eq] at hx
    simp only [isPySpace, Bool.or_eq_true, Bool.and_eq_true,
      decide_eq_true_eq, beq_iff_eq] at hds
    omega
  rw [hnd] at he
  simp at he
  subst he; exact hds

theorem mem_collapseWs_sub {l : Str} {c : Char} (hm : c ∈ collapseWs l) :
    c = ' ' ∨ c ∈ l := by
  induction l with
  | nil => simp [collapseWs] at hm
  | cons a t ih =>
    cases t with
    | nil =>
      by_cases h : isPySpace a = true
      · simp [collapseWs, h] at hm; exact Or.inl hm
      · simp [collapseWs, h] at hm; exact Or.inr (by simp [hm])
    | cons b r =>
      by_cases hab : (isPySpace a && isPySpace b) = true
      · rw [collapseWs, if_pos hab] at hm
        rcases ih hm with h1 | h2
        · exact Or.inl h1
        · exact Or.inr (List.mem_cons_of_mem _ h2)
      · rw [collapseWs, if_neg hab] at hm
        rcases List.mem_cons.mp hm with h1 | h2
        · by_cases ha : isPySpace a = true
          · simp [ha] at h1; exact Or.inl h1
          · simp [ha] at h1; exact Or.inr (by simp [h1])
        · rcases ih h2 with h3 | h4
          · exact Or.inl h3
          · exact Or.inr (List.mem_cons_of_mem _ h4)

theorem allspace_pyStrip_eq_nil {l : Str}
    (h : ∀ c ∈ l, isPySpace c = true) : pyStrip l = [] := by
  unfold pyStrip
  have h1 : l.dropWhile isPySpace = [] := List.dropWhile_eq_nil_iff.mpr h
  rw [h1]
  simp

theorem normalize_blank {s : Str} (h : ∀ c ∈ s, isPySpace c = true) :
    normalize_ocr_noise s = [] := by
  unfold normalize_ocr_noise
  by_cases he : s = []
  · rw [if_pos he]
  · rw [if_neg he]
    have h1 := allspace_replCRLF h
    have h2 := allspace_replTab h1
    have h2u : ∀ c ∈ replTab (replCRLF s), isUPipe c = false :=
      fun c hc => not_isUPipe_of_space (h2 c hc)
    have h3 : collapseUP (replTab (replCRLF s)) = replTab (replCRLF s) :=
      collapseUPGo_id h2u
    rw [h3]
    have h4 := allspace_dashNorm h2
    apply allspace_pyStrip_eq_nil
    intro c hc
    rcases mem_collapseWs_sub hc with h5 | h6
    · subst h5; decide
    · exact h4 c h6

theorem normalize_nonblank {s : Str} (h : ∃ c ∈ s, isPySpace c = false) :
    ∃ c ∈ normalize_ocr_noise s, isPySpace c = false := by
  obtain ⟨c, hm, hp⟩ := h
  have hne : s ≠ [] := by intro hq; subst hq; simp at hm
  unfold normalize_ocr_noise
  rw [if_neg hne]
  have h1 : c ∈ replCRLF s := mem_replCRLF_of_nonspace hm hp
  have h2 : c ∈ replTab (replCRLF s) := nonspace_replTab h1 hp
  have h3 := nonspace_collapseUPGo (f := (replTab (replCRLF s)).length)
    ⟨c, h2, hp⟩
  have h4 := nonspace_dashNorm h3
  obtain ⟨d, hd, hdp⟩ := h4
  exact ⟨d, mem_pyStrip_of_nonspace (nonspace_collapseWs hd hdp) hdp, hdp⟩

/-- The claim C2 theorem.  For every input string, the line sequence
`_lines` derives has at most one element; a blank (all-whitespace or
empty) input yields the empty sequence and any input containing a
non-whitespace character yields exactly one merged line, because
`_normalize_ocr_noise` rewrites every whitespace run — newlines
included — to a single space before `_lines` splits the text. -/
theorem c2_lines_at_most_one (s : Str) :
    (linesF s).length ≤ 1 ∧
    ((∀ c ∈ s, isPySpace c = true) → linesF s = []) ∧
    ((∃ c ∈ s, isPySpace c = false) → (linesF s).length = 1) := by
  refine ⟨linesF_length_le s, ?_, ?_⟩
  · intro h
    unfold linesF
    rw [normalize_blank h]
    rfl
  · intro h
    obtain ⟨c, hm, hp⟩ := normalize_nonblank h
    have hne : normalize_ocr_noise s ≠ [] := by
      intro hq; rw [hq] at hm; simp at hm
    unfold linesF
    rw [splitlinesPy_no_bound (fun d hd => no_bound_normalize hd), if_neg hne]
    have hsne : pyStrip (normalize_ocr_noise s) ≠ [] := by
      intro hq
      have := mem_pyStrip_of_nonspace hm hp
      rw [hq] at this; simp at this
    simp [hsne]

/-- Witness for C2 at a concrete two-line input. -/
theorem c2_lines_at_most_one_witness :
    (∃ c ∈ strL "Name: Jane\nAge: 30", isPySpace c = false) ∧
    (linesF (strL "Name: Jane\nAge: 30")).length = 1 :=
  ⟨⟨'N', by decide, by decide⟩,
    (c2_lines_at_most_one (strL "Name: Jane\nAge: 30")).2.2
      ⟨'N', by decide, by decide⟩⟩

/-! ## Claim C1 -/

/-- The claim C1 evaluation.  Because `_normalize_ocr_noise` collapses
newlines before `_lines` splits, the whole document is one line and the
greedy `(.+)` label captures run to the end of the document: the code
returns the entire tail after `Name:` as `patient_name` and the tail
after `Diagnosis:` as `diagnosis`, contradicting the claimed
`"Jane Doe"` and `"Mild infection"`; the other claimed fields hold. -/
theorem c1_parse_at_spec_input :
    parse_fields_enhanced c1Input none =
      { patient_name := some (FieldVal.vstr (strL "Jane Doe Age: 30 PID: PID-12345 BP: 120/80 mmHg Weight: 68 kg Diagnosis: Mild infection Rx: Amoxicillin 500mg TDS"))
        patient_id := some (FieldVal.vstr (strL "PID-12345"))
        age := some (FieldVal.vstr (strL "30"))
        sex := none
        diagnosis := some (FieldVal.vstr (strL "Mild infection Rx: Amoxicillin 500mg TDS"))
        medications := some (FieldVal.vstr (strL "Amoxicillin 500mg TDS"))
        blood_pressure := some (FieldVal.vstr (strL "120/80"))
        weight := some (FieldVal.vstr (strL "68.0 kg"))
        height := none
        temperature := none
        raw_text := some (FieldVal.vstr c1Input) } ∧
    (parse_fields_enhanced c1Input none).patient_name ≠
      some (FieldVal.vstr (strL "Jane Doe")) ∧
    (parse_fields_enhanced c1Input none).diagnosis ≠
      some (FieldVal.vstr (strL "Mild infection")) := by
  refine ⟨by decide, ?_, ?_⟩ <;> decide

/-! ## Claim C3 -/

theorem confSum_le {l : List (Str × Nat)} (h : ∀ p ∈ l, p.2 ≤ 100) :
    confSum l ≤ 100 * l.length := by
  induction l with
  | nil => simp [confSum]
  | cons p rest ih =>
    have hp := h p (List.mem_cons_self _ _)
    have hr := ih (fun q hq => h q (List.mem_cons_of_mem _ hq))
    simp only [confSum, List.length_cons]
    omega

theorem floor_natCast_div_natCast (a b : Nat) :
    Nat.floor ((a : ℚ) / (b : ℚ)) = a / b := by
  rw [Nat.floor_div_nat, Nat.floor_natCast]

theorem floor_mul_four_fifth_add (m : Nat) :
    Nat.floor ((m : ℚ) * (4 / 5 : ℚ) + 18) = m * 4 / 5 + 18 := by
  have h1 : (m : ℚ) * (4 / 5 : ℚ) + 18 = ((m * 4 + 90 : ℕ) : ℚ) / ((5 : ℕ) : ℚ) := by
    push_cast
    ring
  rw [h1, floor_natCast_div_natCast]
  omega

/-- Counterexample to claim C3 as stated: with the single token
`("x", 16)` and field value `"x"`, the matched average is 16 and the
claimed formula `clamp(round(16 * 0.8 + 18), 30, 95) = round(30.8) = 31`,
but the code truncates (`int(30.8) = 30`). -/
theorem c3_counterexample :
    estimate_field_confidence (some (FieldVal.vstr (strL "x")))
      [(strL "x", 16)] (computeOverallAvg [(strL "x", 16)]) = 30 ∧
    specFieldConfidenceClaim (some (FieldVal.vstr (strL "x")))
      [(strL "x", 16)] ((computeOverallAvg [(strL "x", 16)] : ℕ) : ℚ) = 31 := by
  constructor
  · decide
  · show (max 30 (min 95 (round ((((16 : ℕ) : ℚ)) / (((1 : ℕ)) : ℚ) *
      (4 / 5 : ℚ) + 18))) : ℤ) = 31
    norm_num [round_eq]

/-- The claim C3 theorem, amended: the per-field confidence equals the
claimed formula with truncation in place of rounding (both in the mean
and in the final expression, and with Python-falsy present values also
scoring 20); the stated bounds hold as claimed: the per-field score
lies in [20, 95], an absent field scores exactly 20, and the overall
document average lies in [0, 100]. -/
theorem c3_confidence_floor (fv : Option FieldVal)
    (token_conf : List (Str × Nat)) (h : ∀ p ∈ token_conf, p.2 ≤ 100) :
    estimate_field_confidence fv token_conf (computeOverallAvg token_conf) =
      specFieldConfFloor fv token_conf (computeOverallAvg token_conf) ∧
    (fv = none →
      estimate_field_confidence fv token_conf (computeOverallAvg token_conf) = 20) ∧
    20 ≤ estimate_field_confidence fv token_conf (computeOverallAvg token_conf) ∧
    estimate_field_confidence fv token_conf (computeOverallAvg token_conf) ≤ 95 ∧
    computeOverallAvg token_conf ≤ 100 := by
  refine ⟨?_, ?_, ?_, ?_, ?_⟩
  · unfold estimate_field_confidence specFieldConfFloor
    by_cases hf : pyFalsyF fv = true
    · simp [hf]
    · simp only [Bool.not_eq_true] at hf
      simp only [hf, Bool.false_eq_true, if_false]
      rw [floor_natCast_div_natCast, floor_mul_four_fifth_add]
  · intro hn
    subst hn
    simp [estimate_field_confidence, pyFalsyF]
  · unfold estimate_field_confidence
    by_cases hf : pyFalsyF fv = true
    · simp [hf]
    · simp only [Bool.not_eq_true] at hf
      simp only [hf, Bool.false_eq_true, if_false]
      omega
  · unfold estimate_field_confidence
    by_cases hf : pyFalsyF fv = true
    · simp [hf]
    · simp only [Bool.not_eq_true] at hf
      simp only [hf, Bool.false_eq_true, if_false]
      omega
  · unfold computeOverallAvg
    by_cases he : token_conf = []
    · simp [he]
    · rw [if_neg he]
      have hlen : 0 < token_conf.length := by
        cases token_conf with
        | nil => exact absurd rfl he
        | cons a t => simp
      calc confSum token_conf / token_conf.length
          ≤ 100 * token_conf.length / token_conf.length :=
            Nat.div_le_div_right (confSum_le h)
        _ = 100 := Nat.mul_div_cancel 100 hlen

/-- Witness for C3 at a concrete token list. -/
theorem c3_confidence_floor_witness :
    20 ≤ estimate_field_confidence (some (FieldVal.vstr (strL "x")))
      [(strL "x", 80)] (computeOverallAvg [(strL "x", 80)]) :=
  (c3_confidence_floor (some (FieldVal.vstr (strL "x")))
    [(strL "x", 80)] (by decide)).2.2.1

/-! ## Claim C4 -/

/-- Counterexample to claim C4 as stated: when the captured unit is
`deg` the code echoes it upper-cased instead of producing a `"<value> C"`
output: `"Temp: 38 deg"` yields `"38.0 DEG"`, which does not end in
`C`. -/
theorem c4_counterexample :
    _extract_temperature (strL "Temp: 38 deg") = some (strL "38.0 DEG") ∧
    ∀ v : Sci, strL "38.0 DEG" ≠ fmtSci v ++ strL " C" := by
  constructor
  · decide
  · intro v h
    have h1 : (fmtSci v ++ strL " C").getLast? = some 'C' := by
      rw [List.getLast?_append]
      rfl
    rw [← h] at h1
    exact absurd h1 (by decide)

/-- The claim C4 theorem, amended: whenever the primary temperature
pattern matches with value `v` and captured unit `u`, the result is the
converted `round((v - 32) * 5 / 9, 1)` with unit `C` exactly when `u`
is `F`, or `u` is absent or `C` while `v` exceeds 60; an absent or `C`
unit otherwise keeps `v` as Celsius with output `"<value> C"`; and a
captured `deg` or `°` unit is echoed upper-cased (`"<value> DEG"`,
`"<value> °"`) rather than forced to `C`. -/
theorem c4_temperature (text : Str) (v : Sci) (u : Option TUnit)
    (h : tempScan none text = some (v, u)) :
    _extract_temperature text =
      (if u = some TUnit.tf ∨ ((u = none ∨ u = some TUnit.tc) ∧ sciGtNat v 60 = true)
       then some (fmtSci (f2c v) ++ strL " C")
       else if u = none ∨ u = some TUnit.tc then some (fmtSci v ++ strL " C")
       else some (fmtSci v ++ ' ' :: tunitStr u)) := by
  unfold _extract_temperature
  rw [h]
  cases u with
  | none =>
    by_cases hg : sciGtNat v 60 = true <;> simp +decide [tunitStr, hg]
  | some tu =>
    cases tu with
    | tc => by_cases hg : sciGtNat v 60 = true <;> simp +decide [tunitStr, hg]
    | tf => simp +decide [tunitStr]
    | tdeg => simp +decide [tunitStr]
    | tsign => simp +decide [tunitStr]

/-- Witness for C4 at the claim's own example `"Temp: 101 F"`. -/
theorem c4_temperature_witness :
    tempScan none (strL "Temp: 101 F") = some (⟨101, 0⟩, some TUnit.tf) ∧
    _extract_temperature (strL "Temp: 101 F") = some (strL "38.3 C") :=
  ⟨by decide,
    (c4_temperature (strL "Temp: 101 F") ⟨101, 0⟩ (some TUnit.tf)
      (by decide)).trans (by decide)⟩

/-! ## Claim C5 -/

/-- Counterexample to claim C5 as stated: a labelled weight whose
captured unit is `kgs` is echoed (`"68.0 kgs"`), so the weight output
does not always have the form `"<value> kg"`. -/
theorem c5_counterexample :
    _extract_weight (strL "Weight: 68 kgs") = some (strL "68.0 kgs") ∧
    ∀ v : Sci, strL "68.0 kgs" ≠ fmtSci v ++ strL " kg" := by
  constructor
  · decide
  · intro v h
    have h1 : (fmtSci v ++ strL " kg").getLast? = some 'g' := by
      rw [List.getLast?_append]
      rfl
    rw [← h] at h1
    exact absurd h1 (by decide)

/-- The claim C5 theorem, amended: a labelled weight in pounds is
converted by `round(lb * 0.45359237, 2)`; an omitted unit is read as
kilograms; a captured `kg` unit gives `"<value> kg"` while `kgs` and
`kilograms` are echoed verbatim; with no labelled weight the extractor
falls back first to a bare `NN kg` mention and then to a bare `NN lb`
mention (converted), each rendered `"<value> kg"`. -/
theorem c5_weight (text : Str) :
    (∀ v u, weightScan none text = some (v, u) →
      _extract_weight text = some (
        match u with
        | some WUnit.wlb => fmtSci (_convert_lb_to_kg v) ++ strL " kg"
        | some WUnit.wlbs => fmtSci (_convert_lb_to_kg v) ++ strL " kg"
        | some WUnit.wpounds => fmtSci (_convert_lb_to_kg v) ++ strL " kg"
        | none => fmtSci v ++ strL " kg"
        | some WUnit.wkg => fmtSci v ++ strL " kg"
        | some WUnit.wkgs => fmtSci v ++ strL " kgs"
        | some WUnit.wkilograms => fmtSci v ++ strL " kilograms")) ∧
    (∀ v, weightScan none text = none →
      bareNumUnitScan ["kg", "kgs"] 1 none text = some v →
      _extract_weight text = some (fmtSci v ++ strL " kg")) ∧
    (∀ v, weightScan none text = none →
      bareNumUnitScan ["kg", "kgs"] 1 none text = none →
      bareNumUnitScan ["lb", "lbs", "pounds"] 2 none text = some v →
      _extract_weight text = some (fmtSci (_convert_lb_to_kg v) ++ strL " kg")) := by
  refine ⟨?_, ?_, ?_⟩
  · intro v u h
    unfold _extract_weight
    rw [h]
    cases u with
    | none => rfl
    | some wu => cases wu <;> rfl
  · intro v h1 h2
    unfold _extract_weight
    rw [h1, h2]
  · intro v h1 h2 h3
    unfold _extract_weight
    rw [h1, h2, h3]

/-- Witness for C5 at the claim's own example `"Weight: 150 lbs"`. -/
theorem c5_weight_witness :
    weightScan none (strL "Weight: 150 lbs") = some (⟨150, 0⟩, some WUnit.wlbs) ∧
    _extract_weight (strL "Weight: 150 lbs") = some (strL "68.04 kg") :=
  ⟨by decide,
    ((c5_weight (strL "Weight: 150 lbs")).1 ⟨150, 0⟩ (some WUnit.wlbs)
      (by decide)).trans (by decide)⟩

/-! ## Claim C6 -/

theorem upper_of_idSuffix {c : Char} (h : isIdSuffix c = true) :
    (isUpperC (toUpperC c) || isDigitC (toUpperC c) ||
      (toUpperC c = '-' : Bool)) = true := by
  by_cases hl : 97 ≤ c.toNat ∧ c.toNat ≤ 122
  · have ht : (toUpperC c).toNat = c.toNat - 32 := by
      unfold toUpperC
      rw [dif_pos hl]
      rfl
    simp only [isUpperC, isDigitC, ht, Bool.or_eq_true, Bool.and_eq_true,
      decide_eq_true_eq]
    exact Or.inl (Or.inl ⟨by omega, by omega⟩)
  · have ht : toUpperC c = c := by
      unfold toUpperC
      rw [dif_neg hl]
    simp only [isIdSuffix, isAlnumC, isDigitC, isUpperC, isLowerC,
      Bool.or_eq_true, Bool.and_eq_true, decide_eq_true_eq] at h
    simp only [ht, isUpperC, isDigitC, Bool.or_eq_true, Bool.and_eq_true,
      decide_eq_true_eq]
    rcases h with ((h1 | h2) | h3) | h4
    · exact Or.inl (Or.inr h1)
    · exact Or.inl (Or.inl h2)
    · exact absurd h3 hl
    · exact Or.inr h4

theorem upper_of_alnum {c : Char} (h : isAlnumC c = true) :
    (isUpperC (toUpperC c) || isDigitC (toUpperC c)) = true := by
  by_cases hl : 97 ≤ c.toNat ∧ c.toNat ≤ 122
  · have ht : (toUpperC c).toNat = c.toNat - 32 := by
      unfold toUpperC
      rw [dif_pos hl]
      rfl
    simp only [isUpperC, isDigitC, ht, Bool.or_eq_true, Bool.and_eq_true,
      decide_eq_true_eq]
    exact Or.inl ⟨by omega, by omega⟩
  · have ht : toUpperC c = c := by
      unfold toUpperC
      rw [dif_neg hl]
    simp only [isAlnumC, isDigitC, isUpperC, isLowerC, Bool.or_eq_true,
      Bool.and_eq_true, decide_eq_true_eq] at h
    simp only [ht, isUpperC, isDigitC, Bool.or_eq_true, Bool.and_eq_true,
      decide_eq_true_eq]
    rcases h with (h1 | h2) | h3
    · exact Or.inr h1
    · exact Or.inl h2
    · exact absurd h3 hl

theorem tryIdPre_pre {s : Str} {p a : Str} (h : tryIdPre s = some (p, a)) :
    p = strL "PID" ∨ p = strL "MRN" ∨ p = strL "ID" := by
  unfold tryIdPre at h
  rcases h1 : stripCI (strL "PID") s with _ | r1 <;> rw [h1] at h
  · rcases h2 : stripCI (strL "MRN") s with _ | r2 <;> rw [h2] at h
    · rcases h3 : stripCI (strL "ID") s with _ | r3 <;> rw [h3] at h
      · exact absurd h (by simp)
      · simp at h
        exact Or.inr (Or.inr h.1.symm)
    · simp at h
      exact Or.inr (Or.inl h.1.symm)
  · simp at h
    exact Or.inl h.1.symm

theorem idPrefixScan_spec {s : Str} {pre g : Str}
    (h : idPrefixScan s = some (pre, g)) :
    (pre = strL "PID" ∨ pre = strL "MRN" ∨ pre = strL "ID") ∧ g ≠ [] ∧
      ∀ c ∈ g, isIdSuffix c = true := by
  induction s with
  | nil => simp [idPrefixScan] at h
  | cons c rest ih =>
    rw [idPrefixScan] at h
    rcases htry : tryIdPre (c :: rest) with _ | ⟨p, after⟩ <;> rw [htry] at h
    · exact ih h
    · replace h : (if (List.takeWhile isIdSuffix (List.dropWhile isIdSkip after)) ≠ []
          then some (p, List.takeWhile isIdSuffix (List.dropWhile isIdSkip after))
          else if (List.takeWhile isIdSkip after).contains '-' = true
            then some (p, ['-']) else idPrefixScan rest) = some (pre, g) := h
      by_cases hg : (List.takeWhile isIdSuffix (List.dropWhile isIdSkip after)) ≠ []
      · rw [if_pos hg] at h
        simp only [Option.some.injEq, Prod.mk.injEq] at h
        obtain ⟨hp, hgg⟩ := h
        subst hp; subst hgg
        exact ⟨tryIdPre_pre htry, hg,
          fun d hd => List.mem_takeWhile_imp hd⟩
      · rw [if_neg hg] at h
        by_cases hdash : (after.takeWhile isIdSkip).contains '-' = true
        · rw [if_pos hdash] at h
          simp only [Option.some.injEq, Prod.mk.injEq] at h
          obtain ⟨hp, hgg⟩ := h
          subst hp; subst hgg
          refine ⟨tryIdPre_pre htry, by simp, ?_⟩
          intro d hd
          simp only [List.mem_singleton] at hd
          subst hd
          decide
        · rw [if_neg hdash] at h
          exact ih h

theorem normalize_patient_id_form {raw r : Str}
    (h : normalize_patient_id raw = some r) : amendedIdForm r = true := by
  unfold normalize_patient_id at h
  by_cases he : raw = []
  · rw [if_pos he] at h
    exact absurd h (by simp)
  · rw [if_neg he] at h
    rcases hscan : idPrefixScan (pyStrip raw) with _ | ⟨pre, g⟩ <;>
      simp only [hscan] at h
    · by_cases hlen : 4 ≤ (List.filter isAlnumC (pyStrip raw)).length ∧
        (List.filter isAlnumC (pyStrip raw)).length ≤ 20
      · rw [if_pos hlen] at h
        simp only [Option.some.injEq] at h
        subst h
        have hbare : isBareIdForm (upperStr (List.filter isAlnumC (pyStrip raw))) = true := by
          simp only [isBareIdForm, upperStr, Bool.and_eq_true, decide_eq_true_eq,
            List.length_map, List.all_eq_true]
          refine ⟨⟨hlen.1, hlen.2⟩, ?_⟩
          intro d hd
          obtain ⟨a, ha, hda⟩ := List.mem_map.mp hd
          subst hda
          exact upper_of_alnum (List.mem_filter.mp ha).2
        simp [amendedIdForm, hbare]
      · rw [if_neg hlen] at h
        exact absurd h (by simp)
    · simp only [Option.some.injEq] at h
      subst h
      obtain ⟨hpre, hg, hcls⟩ := idPrefixScan_spec hscan
      have hreg : amendedIdRegex (pre ++ '-' :: upperStr g) = true := by
        have hsuf : upperStr g ≠ [] ∧ (upperStr g).all
            (fun c => isUpperC c || isDigitC c || decide (c = '-')) = true := by
          constructor
          · simp only [upperStr, ne_eq, List.map_eq_nil_iff]
            exact hg
          · rw [List.all_eq_true]
            intro d hd
            obtain ⟨a, ha, hda⟩ := List.mem_map.mp hd
            subst hda
            simpa using upper_of_idSuffix (hcls a ha)
        rcases hpre with hp | hp | hp <;> subst hp
        · rw [show amendedIdRegex (strL "PID" ++ '-' :: upperStr g) =
            (decide (upperStr g ≠ []) && (upperStr g).all
              (fun c => isUpperC c || isDigitC c || decide (c = '-'))) from rfl]
          simp only [Bool.and_eq_true, decide_eq_true_eq]
          exact ⟨hsuf.1, hsuf.2⟩
        · rw [show amendedIdRegex (strL "MRN" ++ '-' :: upperStr g) =
            (decide (upperStr g ≠ []) && (upperStr g).all
              (fun c => isUpperC c || isDigitC c || decide (c = '-'))) from rfl]
          simp only [Bool.and_eq_true, decide_eq_true_eq]
          exact ⟨hsuf.1, hsuf.2⟩
        · rw [show amendedIdRegex (strL "ID" ++ '-' :: upperStr g) =
            (decide (upperStr g ≠ []) && (upperStr g).all
              (fun c => isUpperC c || isDigitC c || decide (c = '-'))) from rfl]
          simp only [Bool.and_eq_true, decide_eq_true_eq]
          exact ⟨hsuf.1, hsuf.2⟩
      simp [amendedIdForm, hreg]

theorem idFallback_form {lines : List Str} {r : Str}
    (h : idFallback lines = some r) : amendedIdForm r = true := by
  induction lines with
  | nil => simp [idFallback] at h
  | cons ln rest ih =>
    rw [idFallback] at h
    rcases hs : idFallbackScan none ln with _ | g <;> rw [hs] at h
    · exact ih h
    · exact normalize_patient_id_form h

/-- Counterexample to claim C6 as stated: the suffix class
`[A-Za-z0-9\-]+` of `_normalize_patient_id` admits internal hyphens, so
the extracted id `"PID-12-34"` matches neither `^[A-Z]+-[A-Z0-9]+$` nor
the bare-token form. -/
theorem c6_counterexample :
    extract_patient_id [strL "Patient ID: PID-12-34"] = some (strL "PID-12-34") ∧
    specIdFormClaim (strL "PID-12-34") = false := by
  constructor
  · decide
  · decide

/-- The claim C6 theorem, amended: every non-null extracted patient id
matches `^[A-Z]+-[A-Z0-9-]+$` (the suffix may contain internal hyphens)
or is a bare uppercase alphanumeric token of length 4 to 20. -/
theorem c6_patient_id_form (lines : List Str) (r : Str)
    (h : extract_patient_id lines = some r) : amendedIdForm r = true := by
  unfold extract_patient_id at h
  rcases hf : find_label_value lines idLabels with _ | v <;> simp only [hf] at h
  · exact idFallback_form h
  · by_cases hv : v ≠ []
    · rw [if_pos hv] at h
      exact normalize_patient_id_form h
    · rw [if_neg hv] at h
      exact idFallback_form h

/-- Witness for C6: a labelled record number that normalises through
the bare-token branch. -/
theorem c6_patient_id_form_witness : amendedIdForm (strL "AB12") = true :=
  c6_patient_id_form [strL "MRN: AB-12"] (strL "AB12") (by decide)

/-! ## Claim C7 -/

theorem isStrOpt_map (o : Option Str) : isStrOpt (o.map FieldVal.vstr) := by
  intro v h
  cases o with
  | none => simp at h
  | some s =>
    simp only [Option.map_some', Option.some.injEq] at h
    exact ⟨s, h.symm⟩

/-- Counterexample to claim C8 as stated: the enhanced parser stores
the age as the string produced by `str(int(...))`, not as an integer:
parsing `"Age: 30"` yields the string `"30"`. -/
theorem c8_counterexample :
    (parse_fields_enhanced (strL "Age: 30") none).age =
      some (FieldVal.vstr (strL "30")) ∧
    ∀ n : Int, FieldVal.vstr (strL "30") ≠ FieldVal.vint n := by
  constructor
  · decide
  · intro n h
    exact FieldVal.noConfusion h

/-- The claim C8 theorem, amended: every non-null value in the field
set returned by the enhanced parser is a string — including the age,
which is the decimal string of the parsed integer.  (Only the separate
NER-assisted fallback parser `parse_fields_with_spacy` stores age as an
integer.) -/
theorem c8_field_types (text : Str) (ner : Option (List (Str × Str))) :
    isStrOpt (parse_fields_enhanced text ner).patient_name ∧
    isStrOpt (parse_fields_enhanced text ner).patient_id ∧
    isStrOpt (parse_fields_enhanced text ner).age ∧
    isStrOpt (parse_fields_enhanced text ner).sex ∧
    isStrOpt (parse_fields_enhanced text ner).diagnosis ∧
    isStrOpt (parse_fields_enhanced text ner).medications ∧
    isStrOpt (parse_fields_enhanced text ner).blood_pressure ∧
    isStrOpt (parse_fields_enhanced text ner).weight ∧
    isStrOpt (parse_fields_enhanced text ner).height ∧
    isStrOpt (parse_fields_enhanced text ner).temperature ∧
    isStrOpt (parse_fields_enhanced text ner).raw_text := by
  refine ⟨isStrOpt_map _, isStrOpt_map _, isStrOpt_map _, isStrOpt_map _,
    isStrOpt_map _, isStrOpt_map _, isStrOpt_map _, isStrOpt_map _,
    isStrOpt_map _, isStrOpt_map _, ?_⟩
  intro v h
  simp only [parse_fields_enhanced, Option.some.injEq] at h
  exact ⟨text, h.symm⟩

/-- Witness for C8 at a concrete parse. -/
theorem c8_field_types_witness : ∃ s, FieldVal.vstr (strL "30") = FieldVal.vstr s :=
  (c8_field_types (strL "Age: 30") none).2.2.1
    (FieldVal.vstr (strL "30")) (by decide)

/-! ## Claim C9 -/

/-- The claim C9 theorem.  Parsing the empty input returns all-null
extracted fields (`raw_text` passes the empty string through), overall
confidence 0, per-field confidence 20 everywhere, and the
low-confidence advisory — both with the NER model unavailable and with
a loaded model that returns no entities for the empty text; the
advisory is appended exactly when the overall confidence is below 50.
(No extractor can raise: the embedding is total by construction.) -/
theorem c9_empty_input :
    (extract_fields_core [] [] none).1 =
      { patient_name := none, patient_id := none, age := none, sex := none,
        diagnosis := none, medications := none, blood_pressure := none,
        weight := none, height := none, temperature := none,
        raw_text := some (FieldVal.vstr []) } ∧
    (extract_fields_core [] [] none).2.1 =
      ⟨0, 20, 20, 20, 20, 20, 20, 20, 20, 20, 20⟩ ∧
    lowNote ∈ (extract_fields_core [] [] none).2.2 ∧
    extract_fields_core [] [] (some []) = extract_fields_core [] [] none ∧
    (∀ text tokens ner, lowNote ∈ (extract_fields_core text tokens ner).2.2 ↔
      computeOverallAvg tokens < 50) := by
  refine ⟨by decide, by decide, by decide, by decide, ?_⟩
  intro text tokens ner
  unfold extract_fields_core
  by_cases h : computeOverallAvg tokens < 50
  · simp [h]
  · simp [h]

/-! ## Claim C10 -/

theorem tryLabelsAt_isSome_iff (labels : List Str) (s : Str) :
    (tryLabelsAt labels s).isSome = true ↔
      ∃ l ∈ labels, ∃ rest, stripCI l s = some rest ∧
        (sepCapture rest).isSome = true := by
  induction labels with
  | nil => simp [tryLabelsAt]
  | cons l ls ih =>
    rw [tryLabelsAt]
    rcases hst : stripCI l s with _ | rest
    · simp only [hst, List.mem_cons]
      constructor
      · intro h
        obtain ⟨l2, hm, hr⟩ := ih.mp h
        exact ⟨l2, Or.inr hm, hr⟩
      · intro ⟨l2, hm, rest2, hr2, hc2⟩
        rcases hm with hm | hm
        · subst hm
          rw [hst] at hr2
          exact absurd hr2 (by simp)
        · exact ih.mpr ⟨l2, hm, rest2, hr2, hc2⟩
    · rcases hsc : sepCapture rest with _ | v
      · simp only [hst, hsc, List.mem_cons]
        constructor
        · intro h
          obtain ⟨l2, hm, hr⟩ := ih.mp h
          exact ⟨l2, Or.inr hm, hr⟩
        · intro ⟨l2, hm, rest2, hr2, hc2⟩
          rcases hm with hm | hm
          · subst hm
            rw [hst] at hr2
            simp only [Option.some.injEq] at hr2
            subst hr2
            rw [hsc] at hc2
            simp at hc2
          · exact ih.mpr ⟨l2, hm, rest2, hr2, hc2⟩
      · simp only [hst, hsc, Option.isSome_some, true_iff, List.mem_cons]
        exact ⟨l, Or.inl rfl, rest, hst, by simp [hsc]⟩

theorem labelSearch_cons_isSome (labels : List Str) (c : Char) (rest : Str) :
    (labelSearch labels (c :: rest)).isSome =
      ((tryLabelsAt labels (c :: rest)).isSome ||
        (labelSearch labels rest).isSome) := by
  rw [labelSearch]
  rcases h : tryLabelsAt labels (c :: rest) with _ | v <;> simp [h]

/-- The claim C10 theorem: the label extractor returns null exactly
when no line matches; a returned value is the capture of the first
matching line in document order (every earlier line matches no
synonym); and whether a given line matches depends only on which
synonyms are in the list — never on their order — so synonym order
cannot override document order. -/
theorem c10_find_label_value (lines labels : List Str) :
    (find_label_value lines labels = none ↔
      ∀ ln ∈ lines, labelSearch labels ln = none) ∧
    (∀ v, find_label_value lines labels = some v →
      ∃ i, ∃ hi : i < lines.length,
        labelSearch labels (lines.get ⟨i, hi⟩) = some v ∧
        ∀ j, ∀ hj : j < lines.length, j < i →
          labelSearch labels (lines.get ⟨j, hj⟩) = none) ∧
    (∀ labels2, (∀ l, l ∈ labels ↔ l ∈ labels2) → ∀ ln,
      ((labelSearch labels ln).isSome ↔ (labelSearch labels2 ln).isSome)) := by
  refine ⟨?_, ?_, ?_⟩
  · induction lines with
    | nil => simp [find_label_value]
    | cons ln rest ih =>
      rw [find_label_value]
      rcases h : labelSearch labels ln with _ | v
      · simp only [List.mem_cons]
        constructor
        · intro hf x hx
          rcases hx with hx | hx
          · subst hx; exact h
          · exact (ih.mp hf) x hx
        · intro hall
          exact ih.mpr (fun x hx => hall x (Or.inr hx))
      · simp only [List.mem_cons]
        constructor
        · intro hf
          exact absurd hf (by simp)
        · intro hall
          have := hall ln (Or.inl rfl)
          rw [h] at this
          exact absurd this (by simp)
  · induction lines with
    | nil => intro v h; simp [find_label_value] at h
    | cons ln rest ih =>
      intro v hf
      rw [find_label_value] at hf
      rcases h : labelSearch labels ln with _ | w <;> rw [h] at hf
      · obtain ⟨i, hi, hget, hbefore⟩ := ih v hf
        refine ⟨i + 1, by simpa using Nat.succ_lt_succ hi, by simpa using hget, ?_⟩
        intro j hj hji
        cases j with
        | zero => simpa using h
        | succ j2 =>
          have hj2 : j2 < rest.length := by simpa using Nat.lt_of_succ_lt_succ hj
          have := hbefore j2 hj2 (Nat.lt_of_succ_lt_succ hji)
          simpa using this
      · simp only [Option.some.injEq] at hf
        subst hf
        exact ⟨0, by simp, by simpa using h, fun j hj hji => absurd hji (by omega)⟩
  · intro labels2 hmem ln
    induction ln with
    | nil =>
      show (tryLabelsAt labels []).isSome = true ↔
        (tryLabelsAt labels2 []).isSome = true
      rw [tryLabelsAt_isSome_iff, tryLabelsAt_isSome_iff]
      constructor
      · intro ⟨l, hm, hr⟩
        exact ⟨l, (hmem l).mp hm, hr⟩
      · intro ⟨l, hm, hr⟩
        exact ⟨l, (hmem l).mpr hm, hr⟩
    | cons c rest ih =>
      rw [show ((labelSearch labels (c :: rest)).isSome = true) ↔
          (((tryLabelsAt labels (c :: rest)).isSome ||
            (labelSearch labels rest).isSome) = true) from by
          rw [labelSearch_cons_isSome],
        show ((labelSearch labels2 (c :: rest)).isSome = true) ↔
          (((tryLabelsAt labels2 (c :: rest)).isSome ||
            (labelSearch labels2 rest).isSome) = true) from by
          rw [labelSearch_cons_isSome]]
      simp only [Bool.or_eq_true]
      constructor
      · intro h
        rcases h with h | h
        · left
          rw [tryLabelsAt_isSome_iff] at h ⊢
          obtain ⟨l, hm, hr⟩ := h
          exact ⟨l, (hmem l).mp hm, hr⟩
        · right
          exact ih.mp h
      · intro h
        rcases h with h | h
        · left
          rw [tryLabelsAt_isSome_iff] at h ⊢
          obtain ⟨l, hm, hr⟩ := h
          exact ⟨l, (hmem l).mpr hm, hr⟩
        · right
          exact ih.mpr h

/-- Witness for C10: the second line is the first matching one. -/
theorem c10_find_label_value_witness :
    ∃ i, ∃ hi : i < ([strL "foo", strL "Age: 5"] : List Str).length,
      labelSearch [strL "Age"] (([strL "foo", strL "Age: 5"] : List Str).get ⟨i, hi⟩) =
        some (strL "5") ∧
      ∀ j, ∀ hj : j < ([strL "foo", strL "Age: 5"] : List Str).length, j < i →
        labelSearch [strL "Age"] (([strL "foo", strL "Age: 5"] : List Str).get ⟨j, hj⟩) = none :=
  (c10_find_label_value [strL "foo", strL "Age: 5"] [strL "Age"]).2.1
    (strL "5") (by decide)

end MediScan